import Mathlib

/-!
Shallow embedding of `ecowitt2mqtt/data.py` (the payload translation engine):
the data-type resolver, the key normalizer, the per-session calculator cache,
and the two passes of `DataProcessor.generate_data`.

Python dictionaries are modelled as insertion-ordered association lists
(`AList`), raw payloads as ordered lists of string/string pairs, and the
external calculator capabilities (which live outside the given sources) as
symbolic applications that record the calculator's name, its bound
unit-system parameters and its positional arguments.
-/

namespace Ecowitt2Mqtt

/-- Insertion-ordered association list standing for a Python `dict` with
string keys.  All dictionaries built by the engine start from `[]` and grow
through `ainsert`, so their keys stay pairwise distinct. -/
abbrev AList (α : Type) : Type := List (String × α)

/-- Python `d.get(k)` / `d[k]`: the value of the first pair whose key is `k`. -/
def alookup {α : Type} (l : AList α) (k : String) : Option α :=
  (l.find? (fun p => p.1 == k)).map (·.2)

/-- Python `k in d`. -/
def amem {α : Type} (l : AList α) (k : String) : Bool :=
  l.any (fun p => p.1 == k)

/-- Python `d[k] = v`: overwrite in place when the key is already present
(keeping its position, as a Python dict does), else append at the end.  A
dict never holds a key twice, so overwriting the first occurrence models the
assignment exactly. -/
def ainsert {α : Type} (l : AList α) (k : String) (v : α) : AList α :=
  match l with
  | [] => [(k, v)]
  | p :: rest => if p.1 == k then (k, v) :: rest else p :: ainsert rest k v

/-- Python `needle in hay` on strings: substring containment. -/
def substrB (needle hay : String) : Bool :=
  hay.data.tails.any (fun t => needle.data.isPrefixOf t)

/-- Python `s.endswith(t)`. -/
def endsWith (s t : String) : Bool :=
  t.data.isSuffixOf s.data

/-- Python `s[:-n]` (for `0 < n ≤ len s`): drop the last `n` characters. -/
def dropRightStr (s : String) (n : Nat) : String :=
  ⟨s.data.take (s.data.length - n)⟩

/-- Scalar payload value: the result of Python's `float(value)` coercion
attempt on a raw string — a number when the parse succeeds, else the raw
string unchanged. -/
inductive Scalar where
  | str : String → Scalar
  | num : Rat → Scalar
deriving DecidableEq, Repr

/-- Digits to a natural number, most significant first. -/
def digitsToNat (cs : List Char) : Nat :=
  cs.foldl (fun n c => n * 10 + (c.toNat - 48)) 0

/-- Model of Python `float(s)` on the decimal forms the device emits
(`"77.4"`, `"54"`, `"-3.2"`, `"+4"`): optional sign, a non-empty integer
part, optionally a dot and a non-empty fraction part.  Other strings (the
firmware strings of the spec's §4.4) fail to parse. -/
def parseFloat? (s : String) : Option Rat :=
  let cs := s.data
  let signAndRest : Bool × List Char :=
    match cs with
    | '-' :: r => (true, r)
    | '+' :: r => (false, r)
    | r => (false, r)
  let neg := signAndRest.1
  let body := signAndRest.2
  let intPart := body.takeWhile (fun c => c.isDigit)
  let rest := body.dropWhile (fun c => c.isDigit)
  if intPart.isEmpty then none
  else
    match rest with
    | [] =>
      let v : Rat := (digitsToNat intPart : Nat)
      some (if neg then -v else v)
    | '.' :: frac =>
      if frac.isEmpty || !(frac.all (fun c => c.isDigit)) then none
      else
        let den : Nat := frac.foldl (fun d _ => d * 10) 1
        let v : Rat := (digitsToNat intPart : Nat) + (digitsToNat frac : Nat) / (den : Nat)
        some (if neg then -v else v)
    | _ => none

/-- Lines 126–129 of `data.py`: `try: value = float(value) except ValueError: pass`. -/
def coerceValue (raw : String) : Scalar :=
  match parseFloat? raw with
  | some q => Scalar.num q
  | none => Scalar.str raw

/-- Value stored in the engine's output dictionaries: either a pass-through
scalar, or the symbolic result of applying an external calculator — recording
the calculator's name, the bound input/output unit systems (when its
signature accepts them) and the positional arguments, in order. -/
inductive Value where
  | pv : Scalar → Value
  | app : String → Option String → Option String → List Scalar → Value
deriving DecidableEq, Repr

/-- Modelled from the spec: the calculator capabilities (util/meteo.py and
util/battery.py are not part of the given sources).  Per §3/§6 each is a pure
function of one or more numeric inputs whose signature declares whether it
accepts an `input_unit_system` and/or `output_unit_system` parameter.  A
capability is modelled by its name, its positional arity (1 for the
single-value calculators of §4.4; the length of the derived input list for
the four derived metrics of §4.5) and its two unit-parameter flags. -/
structure Calculator where
  cname : String
  arity : Nat
  acceptsInputUnitSystem : Bool
  acceptsOutputUnitSystem : Bool
deriving DecidableEq, Repr

/-- Modelled from the spec: the meteorological calculators are unit-system
aware (§6), hence accept both unit parameters; the exact flags are irrelevant
to every claim below. -/
def calculate_dew_point : Calculator := ⟨"calculate_dew_point", 2, true, true⟩

/-- Modelled from the spec: feels-like takes temperature, humidity and wind
speed (three inputs, §4.5). -/
def calculate_feels_like : Calculator := ⟨"calculate_feels_like", 3, true, true⟩

/-- Modelled from the spec: single-value pressure conversion (§4.4). -/
def calculate_pressure : Calculator := ⟨"calculate_pressure", 1, true, true⟩

/-- Modelled from the spec: binary battery-state mapping of a single value;
it needs no unit systems (§6). -/
def calculate_binary_battery : Calculator := ⟨"calculate_binary_battery", 1, false, false⟩

/-- Modelled from the spec: single-value rain-volume conversion (§4.4). -/
def calculate_rain_volume : Calculator := ⟨"calculate_rain_volume", 1, true, true⟩

/-- Modelled from the spec: single-value temperature conversion (§4.4). -/
def calculate_temperature : Calculator := ⟨"calculate_temperature", 1, true, true⟩

/-- Modelled from the spec: single-value wind-speed conversion (§4.4). -/
def calculate_wind_speed : Calculator := ⟨"calculate_wind_speed", 1, true, true⟩

/-- Modelled from the spec: heat index takes temperature and humidity (§4.5). -/
def calculate_heat_index : Calculator := ⟨"calculate_heat_index", 2, true, true⟩

/-- Modelled from the spec: wind chill takes temperature and wind speed (§4.5). -/
def calculate_wind_chill : Calculator := ⟨"calculate_wind_chill", 2, true, true⟩

/-- Modelled from the spec: const.py is not part of the given sources; the
identifier strings are fixed by the spec's example scenarios (derived outputs
`dewpoint`/`feelslike`/`heatindex`/`windchill`, glob families `temp`, `wind`,
`rain`, `barom`, `batt`) and by §4.5, which looks the derived input
identifiers up directly in the raw payload (`tempf`, `humidity`,
`windspeedmph`). -/
def DATA_POINT_DEWPOINT : String := "dewpoint"

/-- Modelled from the spec: see `DATA_POINT_DEWPOINT`. -/
def DATA_POINT_FEELSLIKE : String := "feelslike"

/-- Modelled from the spec: see `DATA_POINT_DEWPOINT`. -/
def DATA_POINT_GLOB_BAROM : String := "barom"

/-- Modelled from the spec: see `DATA_POINT_DEWPOINT`. -/
def DATA_POINT_GLOB_BATT : String := "batt"

/-- Modelled from the spec: see `DATA_POINT_DEWPOINT`. -/
def DATA_POINT_GLOB_RAIN : String := "rain"

/-- Modelled from the spec: see `DATA_POINT_DEWPOINT`. -/
def DATA_POINT_GLOB_TEMP : String := "temp"

/-- Modelled from the spec: see `DATA_POINT_DEWPOINT`. -/
def DATA_POINT_GLOB_WIND : String := "wind"

/-- Modelled from the spec: see `DATA_POINT_DEWPOINT`. -/
def DATA_POINT_HEATINDEX : String := "heatindex"

/-- Modelled from the spec: see `DATA_POINT_DEWPOINT`. -/
def DATA_POINT_HUMIDITY : String := "humidity"

/-- Modelled from the spec: see `DATA_POINT_DEWPOINT`. -/
def DATA_POINT_TEMPF : String := "tempf"

/-- Modelled from the spec: see `DATA_POINT_DEWPOINT`. -/
def DATA_POINT_WINDCHILL : String := "windchill"

/-- Modelled from the spec: see `DATA_POINT_DEWPOINT`. -/
def DATA_POINT_WINDSPEEDMPH : String := "windspeedmph"

/-- Line 34 of `data.py`. -/
def DEFAULT_KEYS_TO_IGNORE : List String :=
  ["PASSKEY", "dateutc", "freq", "model", "stationtype"]

/-- Lines 37–47 of `data.py`: the calculator registry, in the dict's
declaration order (a Python dict iterates in insertion order). -/
def CALCULATOR_FUNCTION_MAP : AList Calculator :=
  [ (DATA_POINT_DEWPOINT, calculate_dew_point)
  , (DATA_POINT_FEELSLIKE, calculate_feels_like)
  , (DATA_POINT_GLOB_BAROM, calculate_pressure)
  , (DATA_POINT_GLOB_BATT, calculate_binary_battery)
  , (DATA_POINT_GLOB_RAIN, calculate_rain_volume)
  , (DATA_POINT_GLOB_TEMP, calculate_temperature)
  , (DATA_POINT_GLOB_WIND, calculate_wind_speed)
  , (DATA_POINT_HEATINDEX, calculate_heat_index)
  , (DATA_POINT_WINDCHILL, calculate_wind_chill)
  ]

/-- Lines 50–53 of `data.py`: ordered input lists of the derived metrics. -/
def DEW_POINT_KEYS : List String := [DATA_POINT_TEMPF, DATA_POINT_HUMIDITY]

/-- Line 51 of `data.py`. -/
def FEELS_LIKE_KEYS : List String :=
  [DATA_POINT_TEMPF, DATA_POINT_HUMIDITY, DATA_POINT_WINDSPEEDMPH]

/-- Line 52 of `data.py`. -/
def HEAT_INDEX_KEYS : List String := [DATA_POINT_TEMPF, DATA_POINT_HUMIDITY]

/-- Line 53 of `data.py`. -/
def WIND_CHILL_KEYS : List String := [DATA_POINT_TEMPF, DATA_POINT_WINDSPEEDMPH]

/-- Lines 56–64 of `data.py`: `de_unit_key`, removing the unit from a key. -/
def de_unit_key (key : String) : String :=
  if endsWith key "f" then dropRightStr key 1
  else if endsWith key "in" then dropRightStr key 2
  else if endsWith key "mph" then dropRightStr key 3
  else key

/-- Lines 67–76 of `data.py`: `get_data_type`.  Exact membership in the
registry first; otherwise `matches = [k for k in CALCULATOR_FUNCTION_MAP if
k in key]` and `matches[0]` when non-empty. -/
def get_data_type (key : String) : Option String :=
  if CALCULATOR_FUNCTION_MAP.any (fun p => p.1 == key) then some key
  else
    match (CALCULATOR_FUNCTION_MAP.map (·.1)).filter (fun k => substrB k key) with
    | [] => none
    | m :: _ => some m

/-- A calculator with its unit-system parameters already bound: the model of
`functools.partial(func, **kwargs)` built at lines 109–116 of `data.py`. -/
structure BoundCalc where
  cname : String
  arity : Nat
  inUnit : Option String
  outUnit : Option String
deriving DecidableEq, Repr

/-- Lines 109–116 of `data.py`: bind exactly the unit-system parameters the
calculator's signature declares. -/
def bindCalculator (c : Calculator) (iu ou : String) : BoundCalc :=
  ⟨ c.cname
  , c.arity
  , if c.acceptsInputUnitSystem then some iu else none
  , if c.acceptsOutputUnitSystem then some ou else none ⟩

/-- Invoking a bound calculator on positional arguments.  A Python call with
the wrong number of positional arguments raises `TypeError`, modelled as
`none`; otherwise the result is the symbolic application of the external
function. -/
def applyBound (b : BoundCalc) (args : List Scalar) : Option Value :=
  if args.length = b.arity then some (Value.app b.cname b.inUnit b.outUnit args)
  else none

/-- The mutable state of one `DataProcessor` session: the fixed unit-system
configuration and the `_calculator_funcs` cache (line 90 of `data.py`). -/
structure Session where
  inputUnitSystem : String
  outputUnitSystem : String
  funcs : AList BoundCalc
deriving DecidableEq, Repr

/-- Lines 97–117 of `data.py`: `DataProcessor._get_calculator_func`.  The
inner `none` branch corresponds to `CALCULATOR_FUNCTION_MAP[data_type]`
raising `KeyError` on a missing key; it is proved unreachable below. -/
def get_calculator_func (s : Session) (key : String) : Option BoundCalc × Session :=
  match get_data_type key with
  | none => (none, s)
  | some t =>
    match alookup s.funcs t with
    | some f => (some f, s)
    | none =>
      match alookup CALCULATOR_FUNCTION_MAP t with
      | none => (none, s)
      | some c =>
        let f := bindCalculator c s.inputUnitSystem s.outputUnitSystem
        (some f, { s with funcs := ainsert s.funcs t f })

/-- A raw device payload: an insertion-ordered string-to-string mapping. -/
abbrev Payload := List (String × String)

/-- Python `self._payload[k]` as an `Option` (a missing key raises `KeyError`). -/
def plookup (p : Payload) (k : String) : Option String :=
  (p.find? (fun kv => kv.1 == k)).map (·.2)

/-- Lines 121–137 of `data.py`: the single-value pass of `generate_data`,
processing the raw entries in payload order.  `none` signals that the Python
loop would raise (a calculator called with the wrong positional arity). -/
def translateList (td : AList Value) (s : Session) : Payload → Option (AList Value × Session)
  | [] => some (td, s)
  | (key, raw) :: rest =>
    if DEFAULT_KEYS_TO_IGNORE.contains key then translateList td s rest
    else
      let value := coerceValue raw
      match get_calculator_func s key with
      | (some c, s1) =>
        match applyBound c [value] with
        | some output => translateList (ainsert td (de_unit_key key) output) s1 rest
        | none => none
      | (none, s1) => translateList (ainsert td key (Value.pv value)) s1 rest

/-- Lines 140–145 of `data.py`: the fixed, ordered derived-metric
specifications. -/
def DERIVED_METRIC_SPECS : List (String × List String) :=
  [ (DATA_POINT_DEWPOINT, DEW_POINT_KEYS)
  , (DATA_POINT_FEELSLIKE, FEELS_LIKE_KEYS)
  , (DATA_POINT_HEATINDEX, HEAT_INDEX_KEYS)
  , (DATA_POINT_WINDCHILL, WIND_CHILL_KEYS)
  ]

/-- Lines 139–152 of `data.py`: the derived-metric pass.  The gate checks the
translated mapping; the argument values are looked up in the raw payload
(`self._payload[k]`, which raises `KeyError` on a miss — modelled as `none`),
and the call is positional in the declared input order. -/
def calculatedList (payload : Payload) (td : AList Value) (cd : AList Value)
    (s : Session) : List (String × List String) → Option (AList Value × Session)
  | [] => some (cd, s)
  | (tk, inks) :: rest =>
    if inks.all (fun k => amem td k) then
      match get_calculator_func s tk with
      | (some c, s1) =>
        match inks.mapM (fun k => plookup payload k) with
        | some raws =>
          match applyBound c (raws.map Scalar.str) with
          | some output => calculatedList payload td (ainsert cd tk output) s1 rest
          | none => none
        | none => none
      | (none, s1) => calculatedList payload td cd s1 rest
    else calculatedList payload td cd s rest

/-- Python `{**translated_data, **calculated_data}` (line 154 of `data.py`). -/
def mergeDicts (a b : AList Value) : AList Value :=
  b.foldl (fun d kv => ainsert d kv.1 kv.2) a

/-- Lines 119–154 of `data.py`: `DataProcessor.generate_data` for a processor
constructed with the given payload and unit systems.  `none` signals that the
Python method would raise. -/
def generate_data (payload : Payload) (input_unit_system output_unit_system : String) :
    Option (AList Value) :=
  match translateList [] ⟨input_unit_system, output_unit_system, []⟩ payload with
  | none => none
  | some (td, s1) =>
    match calculatedList payload td [] s1 DERIVED_METRIC_SPECS with
    | none => none
    | some (cd, _) => some (mergeDicts td cd)

/-- The canonical output name the single-value pass files a non-ignored raw
key under: the normalized key on the calculator path, the key itself on the
pass-through path. -/
def targetName (key : String) : String :=
  match get_data_type key with
  | some _ => de_unit_key key
  | none => key

/-- Spec-side restatement of the Key Normalizer (§4.1), written from the
spec's words: the longest/most-specific suffix is checked first (`mph`
removes 3 characters, then `in` removes 2, then `f` removes 1), and an
unmatched key is returned unchanged.  Compared with the source's
`de_unit_key` below. -/
def deUnitKeySpec (key : String) : String :=
  if endsWith key "mph" then dropRightStr key 3
  else if endsWith key "in" then dropRightStr key 2
  else if endsWith key "f" then dropRightStr key 1
  else key


/-- Invariant of the `_calculator_funcs` cache: every stored binding is the
registry calculator for that data type, specialized to the session's fixed
unit-system configuration. -/
def SessionWF (s : Session) : Prop :=
  ∀ t b, alookup s.funcs t = some b →
    ∃ c, alookup CALCULATOR_FUNCTION_MAP t = some c ∧
      b = bindCalculator c s.inputUnitSystem s.outputUnitSystem

/-- Proof-side composition: the positional arity of the registry calculator
the key resolves to, when any. -/
def resolvedArity (key : String) : Option Nat :=
  (get_data_type key).bind (fun t => (alookup CALCULATOR_FUNCTION_MAP t).map Calculator.arity)

/-! ### Association-list lemmas -/

theorem amem_nil {α : Type} (k : String) : amem ([] : AList α) k = false := rfl

theorem amem_cons {α : Type} (p : String × α) (l : AList α) (k : String) :
    amem (p :: l) k = (p.1 == k || amem l k) := by
  simp [amem, List.any_cons]

theorem alookup_cons_pos {α : Type} (p : String × α) (l : AList α) (k : String)
    (h : p.1 = k) : alookup (p :: l) k = some p.2 := by
  simp [alookup, List.find?_cons_of_pos, h]

theorem alookup_cons_neg {α : Type} (p : String × α) (l : AList α) (k : String)
    (h : p.1 ≠ k) : alookup (p :: l) k = alookup l k := by
  simp [alookup, List.find?_cons_of_neg, h]

theorem ainsert_nil {α : Type} (k : String) (v : α) :
    ainsert ([] : AList α) k v = [(k, v)] := rfl

theorem ainsert_cons_pos {α : Type} (p : String × α) (l : AList α) (k : String) (v : α)
    (h : p.1 = k) : ainsert (p :: l) k v = (k, v) :: l := by
  simp [ainsert, h]

theorem ainsert_cons_neg {α : Type} (p : String × α) (l : AList α) (k : String) (v : α)
    (h : p.1 ≠ k) : ainsert (p :: l) k v = p :: ainsert l k v := by
  simp [ainsert, h]

theorem amem_iff_mem_keys {α : Type} (l : AList α) (k : String) :
    amem l k = true ↔ k ∈ l.map Prod.fst := by
  simp [amem, List.any_eq_true, List.mem_map, beq_iff_eq]

theorem amem_false_iff {α : Type} (l : AList α) (k : String) :
    amem l k = false ↔ k ∉ l.map Prod.fst := by
  rw [← amem_iff_mem_keys]
  cases amem l k <;> simp

theorem alookup_isSome_of_mem_keys {α : Type} (l : AList α) (k : String)
    (h : k ∈ l.map Prod.fst) : ∃ v, alookup l k = some v := by
  induction l with
  | nil => simp at h
  | cons p rest ih =>
    by_cases hp : p.1 = k
    · exact ⟨p.2, alookup_cons_pos p rest k hp⟩
    · have hk : k ∈ rest.map Prod.fst := by
        simp at h
        rcases h with h | h
        · exact absurd h.symm hp
        · simpa using h
      obtain ⟨v, hv⟩ := ih hk
      exact ⟨v, by rw [alookup_cons_neg p rest k hp]; exact hv⟩

theorem alookup_ainsert_self {α : Type} (l : AList α) (k : String) (v : α) :
    alookup (ainsert l k v) k = some v := by
  induction l with
  | nil => rw [ainsert_nil]; exact alookup_cons_pos _ _ _ rfl
  | cons p rest ih =>
    by_cases hp : p.1 = k
    · rw [ainsert_cons_pos p rest k v hp]; exact alookup_cons_pos _ _ _ rfl
    · rw [ainsert_cons_neg p rest k v hp, alookup_cons_neg p _ k hp]; exact ih

theorem alookup_ainsert_ne {α : Type} (l : AList α) (k k' : String) (v : α)
    (h : k' ≠ k) : alookup (ainsert l k v) k' = alookup l k' := by
  induction l with
  | nil =>
    rw [ainsert_nil, alookup_cons_neg _ _ _ (fun hh => h hh.symm)]
  | cons p rest ih =>
    by_cases hp : p.1 = k
    · rw [ainsert_cons_pos p rest k v hp,
        alookup_cons_neg _ _ _ (fun hh : k = k' => h hh.symm),
        alookup_cons_neg p _ k' (fun hh => h (hp ▸ hh).symm)]
    · by_cases hp' : p.1 = k'
      · rw [ainsert_cons_neg p rest k v hp, alookup_cons_pos _ _ _ hp',
          alookup_cons_pos _ _ _ hp']
      · rw [ainsert_cons_neg p rest k v hp, alookup_cons_neg _ _ _ hp',
          alookup_cons_neg _ _ _ hp']
        exact ih

theorem amem_ainsert {α : Type} (l : AList α) (k k' : String) (v : α) :
    amem (ainsert l k v) k' = (k == k' || amem l k') := by
  induction l with
  | nil => rw [ainsert_nil, amem_cons, amem_nil]
  | cons p rest ih =>
    by_cases hp : p.1 = k
    · rw [ainsert_cons_pos p rest k v hp, amem_cons, amem_cons, hp]
      cases hkk : (k == k') <;> simp
    · rw [ainsert_cons_neg p rest k v hp, amem_cons, ih, amem_cons]
      cases p.1 == k' <;> cases k == k' <;> simp

theorem keys_ainsert_of_amem_false {α : Type} (l : AList α) (k : String) (v : α)
    (h : amem l k = false) : (ainsert l k v).map Prod.fst = l.map Prod.fst ++ [k] := by
  induction l with
  | nil => rw [ainsert_nil]; simp
  | cons p rest ih =>
    rw [amem_cons, Bool.or_eq_false_iff] at h
    have hp : p.1 ≠ k := by simpa [beq_iff_eq] using h.1
    rw [ainsert_cons_neg p rest k v hp]
    simp [ih h.2]

theorem keys_ainsert_of_amem_true {α : Type} (l : AList α) (k : String) (v : α)
    (h : amem l k = true) : (ainsert l k v).map Prod.fst = l.map Prod.fst := by
  induction l with
  | nil => rw [amem_nil] at h; cases h
  | cons p rest ih =>
    by_cases hp : p.1 = k
    · rw [ainsert_cons_pos p rest k v hp]; simp [hp]
    · have hrest : amem rest k = true := by
        rw [amem_cons] at h
        simpa [beq_iff_eq, hp] using h
      rw [ainsert_cons_neg p rest k v hp]
      simp [ih hrest]

theorem length_ainsert_of_amem_false {α : Type} (l : AList α) (k : String) (v : α)
    (h : amem l k = false) : (ainsert l k v).length = l.length + 1 := by
  have h1 := congrArg List.length (keys_ainsert_of_amem_false l k v h)
  simpa using h1

theorem nodup_keys_ainsert {α : Type} (l : AList α) (k : String) (v : α)
    (h : (l.map Prod.fst).Nodup) : ((ainsert l k v).map Prod.fst).Nodup := by
  cases hm : amem l k with
  | true => rw [keys_ainsert_of_amem_true l k v hm]; exact h
  | false =>
    rw [keys_ainsert_of_amem_false l k v hm]
    have hk : k ∉ l.map Prod.fst := (amem_false_iff l k).1 hm
    simp [List.nodup_append, h, hk]

/-! ### Merge lemmas (`{**translated_data, **calculated_data}`) -/

theorem mergeDicts_nil (a : AList Value) : mergeDicts a [] = a := rfl

theorem mergeDicts_cons (a : AList Value) (p : String × Value) (b : AList Value) :
    mergeDicts a (p :: b) = mergeDicts (ainsert a p.1 p.2) b := rfl

theorem amem_mergeDicts (a b : AList Value) (k : String) :
    amem (mergeDicts a b) k = (amem a k || amem b k) := by
  induction b generalizing a with
  | nil => rw [mergeDicts_nil, amem_nil, Bool.or_false]
  | cons p rest ih =>
    rw [mergeDicts_cons, ih, amem_ainsert, amem_cons]
    cases p.1 == k <;> cases amem a k <;> cases amem rest k <;> simp

theorem alookup_mergeDicts_of_amem_false (a b : AList Value) (k : String)
    (h : amem b k = false) : alookup (mergeDicts a b) k = alookup a k := by
  induction b generalizing a with
  | nil => rfl
  | cons p rest ih =>
    rw [amem_cons, Bool.or_eq_false_iff] at h
    have hp : p.1 ≠ k := by simpa [beq_iff_eq] using h.1
    rw [mergeDicts_cons, ih (ainsert a p.1 p.2) h.2,
      alookup_ainsert_ne a p.1 k p.2 (fun hh => hp hh.symm)]

theorem alookup_mergeDicts_of_alookup (a b : AList Value) (k : String) (v : Value)
    (hnd : (b.map Prod.fst).Nodup) (h : alookup b k = some v) :
    alookup (mergeDicts a b) k = some v := by
  induction b generalizing a with
  | nil => simp [alookup] at h
  | cons p rest ih =>
    rw [List.map_cons, List.nodup_cons] at hnd
    by_cases hp : p.1 = k
    · have hv : p.2 = v := by
        rw [alookup_cons_pos p rest k hp] at h
        exact Option.some.inj h
      have hrest : amem rest k = false := by
        rw [amem_false_iff, ← hp]
        exact hnd.1
      rw [mergeDicts_cons, alookup_mergeDicts_of_amem_false _ _ _ hrest, ← hp, ← hv,
        alookup_ainsert_self]
    · have h' : alookup rest k = some v := by
        rw [alookup_cons_neg p rest k hp] at h
        exact h
      rw [mergeDicts_cons]
      exact ih _ hnd.2 h'

theorem nodup_keys_mergeDicts (a b : AList Value)
    (h : (a.map Prod.fst).Nodup) : ((mergeDicts a b).map Prod.fst).Nodup := by
  induction b generalizing a with
  | nil => exact h
  | cons p rest ih => exact ih _ (nodup_keys_ainsert _ _ _ h)

/-! ### Resolver and cache lemmas -/

theorem get_data_type_mem (key t : String) (h : get_data_type key = some t) :
    t ∈ CALCULATOR_FUNCTION_MAP.map Prod.fst := by
  unfold get_data_type at h
  by_cases hx : CALCULATOR_FUNCTION_MAP.any (fun p => p.1 == key) = true
  · rw [if_pos hx] at h
    have ht : t = key := (Option.some.inj h).symm
    obtain ⟨p, hp, hpk⟩ := List.any_eq_true.1 hx
    rw [ht, ← beq_iff_eq.1 hpk]
    exact List.mem_map.2 ⟨p, hp, rfl⟩
  · rw [if_neg hx] at h
    cases hf : (CALCULATOR_FUNCTION_MAP.map (·.1)).filter (fun k => substrB k key) with
    | nil => rw [hf] at h; cases h
    | cons m rest =>
      rw [hf] at h
      have ht : t = m := (Option.some.inj h).symm
      have hm : m ∈ (CALCULATOR_FUNCTION_MAP.map (·.1)).filter (fun k => substrB k key) := by
        rw [hf]; simp
      rw [ht]
      exact (List.mem_filter.1 hm).1

theorem get_data_type_map_isSome (key t : String) (h : get_data_type key = some t) :
    ∃ c, alookup CALCULATOR_FUNCTION_MAP t = some c :=
  alookup_isSome_of_mem_keys _ _ (get_data_type_mem key t h)

theorem sessionWF_empty (iu ou : String) : SessionWF ⟨iu, ou, []⟩ := by
  intro t b hb
  cases hb

theorem get_calculator_func_cached (s : Session) (key t : String) (b : BoundCalc)
    (hgd : get_data_type key = some t) (hc : alookup s.funcs t = some b) :
    get_calculator_func s key = (some b, s) := by
  simp only [get_calculator_func, hgd, hc]

theorem get_calculator_func_some_of_isSome (s : Session) (key t : String)
    (h : get_data_type key = some t) :
    ∃ b s1, get_calculator_func s key = (some b, s1) ∧ alookup s1.funcs t = some b ∧
      s1.inputUnitSystem = s.inputUnitSystem ∧ s1.outputUnitSystem = s.outputUnitSystem := by
  cases hc : alookup s.funcs t with
  | some f =>
    refine ⟨f, s, ?_, hc, rfl, rfl⟩
    simp only [get_calculator_func, h, hc]
  | none =>
    obtain ⟨c, hm⟩ := get_data_type_map_isSome key t h
    have heq : get_calculator_func s key =
        (some (bindCalculator c s.inputUnitSystem s.outputUnitSystem),
          { s with funcs := ainsert s.funcs t (bindCalculator c s.inputUnitSystem s.outputUnitSystem) }) := by
      simp only [get_calculator_func, h, hc, hm]
    exact ⟨_, _, heq, alookup_ainsert_self _ _ _, rfl, rfl⟩

theorem get_calculator_func_none (s : Session) (key : String) (s1 : Session)
    (h : get_calculator_func s key = (none, s1)) :
    get_data_type key = none ∧ s1 = s := by
  cases hgd : get_data_type key with
  | none =>
    simp only [get_calculator_func, hgd] at h
    exact ⟨rfl, (congrArg Prod.snd h).symm⟩
  | some t =>
    obtain ⟨b, s1', hb, -, -, -⟩ := get_calculator_func_some_of_isSome s key t hgd
    rw [hb] at h
    cases congrArg Prod.fst h

theorem get_calculator_func_wf (s : Session) (key : String) (hwf : SessionWF s) :
    SessionWF (get_calculator_func s key).2 ∧
    (∀ b, (get_calculator_func s key).1 = some b →
      ∃ t c, get_data_type key = some t ∧ alookup CALCULATOR_FUNCTION_MAP t = some c ∧
        b = bindCalculator c s.inputUnitSystem s.outputUnitSystem) := by
  cases hgd : get_data_type key with
  | none =>
    simp only [get_calculator_func, hgd]
    exact ⟨hwf, fun b hb => by cases hb⟩
  | some t =>
    cases hc : alookup s.funcs t with
    | some f =>
      simp only [get_calculator_func, hgd, hc]
      refine ⟨hwf, fun b hb => ?_⟩
      have hb' : f = b := Option.some.inj hb
      obtain ⟨c, hm, hbc⟩ := hwf t f hc
      exact ⟨t, c, rfl, hm, hb' ▸ hbc⟩
    | none =>
      cases hm : alookup CALCULATOR_FUNCTION_MAP t with
      | none =>
        simp only [get_calculator_func, hgd, hc, hm]
        exact ⟨hwf, fun b hb => by cases hb⟩
      | some c =>
        simp only [get_calculator_func, hgd, hc, hm]
        constructor
        · intro t' b' hb'
          by_cases ht' : t' = t
          · subst ht'
            rw [alookup_ainsert_self] at hb'
            exact ⟨c, hm, (Option.some.inj hb').symm⟩
          · rw [alookup_ainsert_ne _ _ _ _ ht'] at hb'
            exact hwf t' b' hb'
        · intro b hb
          exact ⟨t, c, rfl, hm, (Option.some.inj hb).symm⟩

/-- Helper: in a list split at the first element satisfying `p`, that element
is uniquely determined. -/
theorem first_satisfying_unique {α : Type} (p : α → Bool) (l1 : List α) :
    ∀ (l2 l1' l2' : List α) (a a' : α),
      l1 ++ a :: l2 = l1' ++ a' :: l2' →
      (∀ x ∈ l1, p x = false) → (∀ x ∈ l1', p x = false) →
      p a = true → p a' = true → a = a' := by
  induction l1 with
  | nil =>
    intro l2 l1' l2' a a' h hl1 hl1' hp hp'
    cases l1' with
    | nil =>
      simp at h
      exact h.1
    | cons y ys =>
      simp at h
      have hy := hl1' y (by simp)
      rw [← h.1, hp] at hy
      cases hy
  | cons x xs ih =>
    intro l2 l1' l2' a a' h hl1 hl1' hp hp'
    cases l1' with
    | nil =>
      simp at h
      have hx := hl1 x (by simp)
      rw [h.1, hp'] at hx
      cases hx
    | cons y ys =>
      simp at h
      exact ih l2 ys l2' a a' h.2
        (fun z hz => hl1 z (by simp [hz])) (fun z hz => hl1' z (by simp [hz])) hp hp'

/-- C1: the Data-Type Resolver returns the key itself on an exact registry
match; otherwise the first registry identifier, in declaration order, that is
a substring of the key; and `none` exactly when the key is no registry
identifier and no identifier occurs inside it.  Exact match wins over any
substring match. -/
theorem get_data_type_characterization :
    ∀ key : String,
      (∀ d, get_data_type key = some d ↔
        (amem CALCULATOR_FUNCTION_MAP key = true ∧ d = key) ∨
        (amem CALCULATOR_FUNCTION_MAP key = false ∧
          ∃ l1 l2, CALCULATOR_FUNCTION_MAP.map Prod.fst = l1 ++ d :: l2 ∧
            substrB d key = true ∧ ∀ d' ∈ l1, substrB d' key = false)) ∧
      (get_data_type key = none ↔
        amem CALCULATOR_FUNCTION_MAP key = false ∧
          ∀ d' ∈ CALCULATOR_FUNCTION_MAP.map Prod.fst, substrB d' key = false) := by
  intro key
  unfold get_data_type
  cases hx : CALCULATOR_FUNCTION_MAP.any (fun p => p.1 == key) with
  | true =>
    rw [if_pos rfl]
    have hx' : amem CALCULATOR_FUNCTION_MAP key = true := hx
    constructor
    · intro d
      constructor
      · intro h
        exact Or.inl ⟨hx', (Option.some.inj h).symm⟩
      · rintro (⟨-, rfl⟩ | ⟨hfalse, -⟩)
        · rfl
        · rw [hx'] at hfalse; cases hfalse
    · constructor
      · intro h; cases h
      · rintro ⟨hfalse, -⟩; rw [hx'] at hfalse; cases hfalse
  | false =>
    rw [if_neg Bool.false_ne_true]
    have hx' : amem CALCULATOR_FUNCTION_MAP key = false := hx
    cases hf : (CALCULATOR_FUNCTION_MAP.map (·.1)).filter (fun k => substrB k key) with
    | nil =>
      have hall : ∀ d' ∈ CALCULATOR_FUNCTION_MAP.map Prod.fst, substrB d' key = false := by
        intro d' hd'
        have := List.filter_eq_nil_iff.1 hf d' hd'
        revert this
        cases substrB d' key <;> simp
      constructor
      · intro d
        constructor
        · intro h; cases h
        · rintro (⟨htrue, -⟩ | ⟨-, l1, l2, hsplit, hpred, -⟩)
          · rw [hx'] at htrue; cases htrue
          · have hd : d ∈ CALCULATOR_FUNCTION_MAP.map Prod.fst := by
              rw [hsplit]; simp
            rw [hall d hd] at hpred
            cases hpred
      · exact ⟨fun _ => ⟨hx', hall⟩, fun _ => rfl⟩
    | cons m rest =>
      obtain ⟨l1, l2, hsplit, hl1, hpred, -⟩ := List.filter_eq_cons_iff.1 hf
      have hl1' : ∀ x ∈ l1, substrB x key = false := by
        intro x hx1
        have := hl1 x hx1
        revert this
        cases substrB x key <;> simp
      constructor
      · intro d
        constructor
        · intro h
          have hd : d = m := (Option.some.inj h).symm
          exact Or.inr ⟨hx', l1, l2, hd ▸ hsplit, hd ▸ hpred, hl1'⟩
        · rintro (⟨htrue, -⟩ | ⟨-, l1', l2', hsplit', hpred', hfail'⟩)
          · rw [hx'] at htrue; cases htrue
          · have : m = d := by
              refine first_satisfying_unique (fun k => substrB k key) l1 l2 l1' l2' m d ?_
                hl1' hfail' hpred hpred'
              rw [← hsplit, ← hsplit']
            rw [this]
      · constructor
        · intro h; cases h
        · rintro ⟨-, hall⟩
          have hm : m ∈ CALCULATOR_FUNCTION_MAP.map Prod.fst := by
            rw [hsplit]; simp
          rw [hall m hm] at hpred
          cases hpred

/-- C10: the resolver only ever returns keys of the calculator registry, so
every resolved data type has a calculator; consequently
`_get_calculator_func` returns no calculator exactly when no data type
resolves, and the fallback path for a matched type with a missing calculator
(`CALCULATOR_FUNCTION_MAP[data_type]` failing) is unreachable. -/
theorem resolver_registry_closed :
    ∀ (s : Session) (key : String),
      ((get_calculator_func s key).1 = none ↔ get_data_type key = none) ∧
      (∀ t, get_data_type key = some t →
        ∃ c, alookup CALCULATOR_FUNCTION_MAP t = some c) := by
  intro s key
  refine ⟨⟨?_, ?_⟩, fun t ht => get_data_type_map_isSome key t ht⟩
  · intro h
    cases hgd : get_data_type key with
    | none => rfl
    | some t =>
      obtain ⟨b, s1, hb, -, -, -⟩ := get_calculator_func_some_of_isSome s key t hgd
      rw [hb] at h
      cases h
  · intro h
    simp only [get_calculator_func, h]

/-- C6: within one session a data type is bound at most once.  If a first
call resolves `k1` to data type `t`, then any later call for any key `k2`
resolving to the same `t` returns the identical stored specialization and
leaves the session (cache included) unchanged — no re-inspection, no
rebinding. -/
theorem calculator_cache_stable :
    ∀ (s : Session) (k1 k2 t : String) (r1 : Option BoundCalc) (s1 : Session),
      get_data_type k1 = some t → get_data_type k2 = some t →
      get_calculator_func s k1 = (r1, s1) →
      get_calculator_func s1 k2 = (r1, s1) ∧
        ∃ b, r1 = some b ∧ alookup s1.funcs t = some b := by
  intro s k1 k2 t r1 s1 h1 h2 hcall
  obtain ⟨b, s1', hb, hstore, -, -⟩ := get_calculator_func_some_of_isSome s k1 t h1
  rw [hcall] at hb
  have hr : r1 = some b := congrArg Prod.fst hb
  have hs : s1 = s1' := congrArg Prod.snd hb
  subst hs
  rw [hr]
  exact ⟨get_calculator_func_cached s1 k2 t b h2 hstore, b, rfl, hstore⟩

/-- Witness for `calculator_cache_stable`: the keys `tempf` and `temp5f`
both resolve to the data type `temp`. -/
theorem calculator_cache_stable_witness :
    get_calculator_func
        ((get_calculator_func ⟨"imperial", "imperial", []⟩ "tempf").2) "temp5f" =
      ((get_calculator_func ⟨"imperial", "imperial", []⟩ "tempf").1,
        (get_calculator_func ⟨"imperial", "imperial", []⟩ "tempf").2) := by
  exact (calculator_cache_stable ⟨"imperial", "imperial", []⟩ "tempf" "temp5f" "temp"
    (get_calculator_func ⟨"imperial", "imperial", []⟩ "tempf").1
    (get_calculator_func ⟨"imperial", "imperial", []⟩ "tempf").2
    (by decide) (by decide) rfl).1

/-! ### Key-normalizer lemmas -/

theorem endsWith_reverse (s t : String) :
    endsWith s t = t.data.reverse.isPrefixOf s.data.reverse := rfl

theorem ends_mph_not_f (s : String) (h : endsWith s "mph" = true) :
    endsWith s "f" = false := by
  rw [endsWith_reverse] at h ⊢
  have hm : ("mph" : String).data.reverse = ['h', 'p', 'm'] := rfl
  have hf : ("f" : String).data.reverse = ['f'] := rfl
  rw [hm] at h
  rw [hf]
  cases hr : s.data.reverse with
  | nil => rw [hr] at h; cases h
  | cons c cs =>
    rw [hr] at h
    simp only [List.isPrefixOf, Bool.and_eq_true, beq_iff_eq] at h
    rw [Bool.eq_false_iff]
    intro hcontra
    simp only [List.isPrefixOf, Bool.and_eq_true, beq_iff_eq] at hcontra
    rw [← h.1] at hcontra
    exact absurd hcontra.1 (by decide)

theorem ends_in_not_f (s : String) (h : endsWith s "in" = true) :
    endsWith s "f" = false := by
  rw [endsWith_reverse] at h ⊢
  have hm : ("in" : String).data.reverse = ['n', 'i'] := rfl
  have hf : ("f" : String).data.reverse = ['f'] := rfl
  rw [hm] at h
  rw [hf]
  cases hr : s.data.reverse with
  | nil => rw [hr] at h; cases h
  | cons c cs =>
    rw [hr] at h
    simp only [List.isPrefixOf, Bool.and_eq_true, beq_iff_eq] at h
    rw [Bool.eq_false_iff]
    intro hcontra
    simp only [List.isPrefixOf, Bool.and_eq_true, beq_iff_eq] at hcontra
    rw [← h.1] at hcontra
    exact absurd hcontra.1 (by decide)

theorem ends_mph_not_in (s : String) (h : endsWith s "mph" = true) :
    endsWith s "in" = false := by
  rw [endsWith_reverse] at h ⊢
  have hm : ("mph" : String).data.reverse = ['h', 'p', 'm'] := rfl
  have hi : ("in" : String).data.reverse = ['n', 'i'] := rfl
  rw [hm] at h
  rw [hi]
  cases hr : s.data.reverse with
  | nil => rw [hr] at h; cases h
  | cons c cs =>
    rw [hr] at h
    simp only [List.isPrefixOf, Bool.and_eq_true, beq_iff_eq] at h
    rw [Bool.eq_false_iff]
    intro hcontra
    simp only [List.isPrefixOf, Bool.and_eq_true, beq_iff_eq] at hcontra
    rw [← h.1] at hcontra
    exact absurd hcontra.1 (by decide)

/-- C8: the Key Normalizer removes exactly one recognized unit suffix — a
trailing `f` removes 1 character, `in` removes 2, `mph` removes 3 — agreeing
everywhere with the spec's longest/most-specific-suffix-first formulation
(`deUnitKeySpec`), and returns the key unchanged when no recognized suffix
matches; it is a pure function, so there are no side effects. -/
theorem de_unit_key_matches_spec :
    ∀ key : String,
      de_unit_key key = deUnitKeySpec key ∧
      (endsWith key "f" = false → endsWith key "in" = false →
        endsWith key "mph" = false → de_unit_key key = key) := by
  intro key
  constructor
  · cases hf : endsWith key "f" with
    | true =>
      have h1 : endsWith key "mph" = false := by
        cases hm : endsWith key "mph"
        · rfl
        · rw [ends_mph_not_f key hm] at hf; cases hf
      have h2 : endsWith key "in" = false := by
        cases hi : endsWith key "in"
        · rfl
        · rw [ends_in_not_f key hi] at hf; cases hf
      simp [de_unit_key, deUnitKeySpec, hf, h1, h2]
    | false =>
      cases hi : endsWith key "in" with
      | true =>
        have h1 : endsWith key "mph" = false := by
          cases hm : endsWith key "mph"
          · rfl
          · rw [ends_mph_not_in key hm] at hi; cases hi
        simp [de_unit_key, deUnitKeySpec, hf, hi, h1]
      | false =>
        cases hm : endsWith key "mph" with
        | true => simp [de_unit_key, deUnitKeySpec, hf, hi, hm]
        | false => simp [de_unit_key, deUnitKeySpec, hf, hi, hm]
  · intro h1 h2 h3
    simp [de_unit_key, h1, h2, h3]

/-- Witness for `de_unit_key_matches_spec`: `humidity` carries no recognized
suffix and is returned unchanged. -/
theorem de_unit_key_matches_spec_witness :
    de_unit_key "humidity" = deUnitKeySpec "humidity" ∧ de_unit_key "humidity" = "humidity" :=
  ⟨(de_unit_key_matches_spec "humidity").1,
    (de_unit_key_matches_spec "humidity").2 (by decide) (by decide) (by decide)⟩

theorem endsWith_decomp (s t : String) (h : endsWith s t = true) :
    s.data = (dropRightStr s t.data.length).data ++ t.data := by
  have hpre : t.data.reverse.isPrefixOf s.data.reverse = true := h
  rw [List.isPrefixOf_iff_prefix] at hpre
  rw [List.reverse_prefix] at hpre
  obtain ⟨u, hu⟩ := hpre
  have hlen : s.data.length - t.data.length = u.length := by
    rw [← hu]
    simp
  have hdata : (dropRightStr s t.data.length).data = u := by
    show s.data.take (s.data.length - t.data.length) = u
    rw [hlen, ← hu, List.take_left]
  rw [hdata]
  exact hu.symm

/-- Inversion of the Key Normalizer: a key normalizing to `g` is `g` itself
or `g` extended by one recognized suffix. -/
theorem de_unit_key_preimage (k g : String) (h : de_unit_key k = g) :
    k = g ∨ k = ⟨g.data ++ ['f']⟩ ∨ k = ⟨g.data ++ ['i', 'n']⟩ ∨
      k = ⟨g.data ++ ['m', 'p', 'h']⟩ := by
  unfold de_unit_key at h
  by_cases h1 : endsWith k "f" = true
  · rw [if_pos h1] at h
    right; left
    have hd := endsWith_decomp k "f" h1
    have hl : ("f" : String).data.length = 1 := rfl
    rw [hl, h] at hd
    exact String.ext hd
  · rw [if_neg h1] at h
    by_cases h2 : endsWith k "in" = true
    · rw [if_pos h2] at h
      right; right; left
      have hd := endsWith_decomp k "in" h2
      have hl : ("in" : String).data.length = 2 := rfl
      rw [hl, h] at hd
      exact String.ext hd
    · rw [if_neg h2] at h
      by_cases h3 : endsWith k "mph" = true
      · rw [if_pos h3] at h
        right; right; right
        have hd := endsWith_decomp k "mph" h3
        have hl : ("mph" : String).data.length = 3 := rfl
        rw [hl, h] at hd
        exact String.ext hd
      · rw [if_neg h3] at h
        exact Or.inl h

theorem resolvedArity_eq (key t : String) (c : Calculator)
    (hgd : get_data_type key = some t) (hc : alookup CALCULATOR_FUNCTION_MAP t = some c) :
    resolvedArity key = some c.arity := by
  unfold resolvedArity
  rw [hgd]
  simp [hc]

/-- A raw key whose resolved calculator is single-input never normalizes to
`dewpoint`, `feelslike` or `heatindex`: every preimage of those names under
the normalizer resolves to the corresponding multi-input calculator. -/
theorem de_unit_not_derived (key : String) (h1 : resolvedArity key = some 1) :
    de_unit_key key ≠ "dewpoint" ∧ de_unit_key key ≠ "feelslike" ∧
      de_unit_key key ≠ "heatindex" := by
  refine ⟨?_, ?_, ?_⟩ <;> intro hg <;>
    rcases de_unit_key_preimage key _ hg with hq | hq | hq | hq <;>
      rw [hq] at h1 <;> exact absurd h1 (by decide)

/-- A non-resolving raw key is none of the derived-metric identifiers (all
four resolve exactly). -/
theorem passthrough_not_derived (key : String) (hnone : get_data_type key = none) :
    key ≠ "dewpoint" ∧ key ≠ "feelslike" ∧ key ≠ "heatindex" ∧ key ≠ "windchill" := by
  refine ⟨?_, ?_, ?_, ?_⟩ <;> rintro rfl <;> exact absurd hnone (by decide)

/-- A resolving, non-ignored raw key never normalizes to a key of the ignore
set. -/
theorem de_unit_not_ignored (key : String) (hres : (get_data_type key).isSome = true)
    (hkey : DEFAULT_KEYS_TO_IGNORE.contains key = false) :
    ∀ g ∈ DEFAULT_KEYS_TO_IGNORE, de_unit_key key ≠ g := by
  intro g hgmem hg
  simp [DEFAULT_KEYS_TO_IGNORE] at hgmem
  rcases hgmem with rfl | rfl | rfl | rfl | rfl <;>
    rcases de_unit_key_preimage key _ hg with hq | hq | hq | hq <;>
      first
      | (rw [hq] at hkey; exact absurd hkey (by decide))
      | (rw [hq] at hres; exact absurd hres (by decide))

/-! ### Single-value pass lemmas -/

theorem get_calculator_func_units (s : Session) (key : String) :
    (get_calculator_func s key).2.inputUnitSystem = s.inputUnitSystem ∧
    (get_calculator_func s key).2.outputUnitSystem = s.outputUnitSystem := by
  cases hgd : get_data_type key with
  | none => simp [get_calculator_func, hgd]
  | some t =>
    cases hc : alookup s.funcs t with
    | some f => simp [get_calculator_func, hgd, hc]
    | none =>
      cases hm : alookup CALCULATOR_FUNCTION_MAP t with
      | none => simp [get_calculator_func, hgd, hc, hm]
      | some c => simp [get_calculator_func, hgd, hc, hm]

theorem get_calculator_func_of_none (s : Session) (key : String)
    (h : get_data_type key = none) : get_calculator_func s key = (none, s) := by
  simp only [get_calculator_func, h]

theorem get_calculator_func_fst_some (s : Session) (key : String) (b : BoundCalc)
    (s1 : Session) (h : get_calculator_func s key = (some b, s1)) :
    (get_data_type key).isSome = true := by
  cases hgd : get_data_type key with
  | none =>
    rw [get_calculator_func_of_none s key hgd] at h
    cases congrArg Prod.fst h
  | some t => rfl

theorem gcf_some_info (s : Session) (key : String) (b : BoundCalc) (s1 : Session)
    (hwf : SessionWF s) (hgc : get_calculator_func s key = (some b, s1)) :
    SessionWF s1 ∧ s1.inputUnitSystem = s.inputUnitSystem ∧
    s1.outputUnitSystem = s.outputUnitSystem ∧
    ∃ t c, get_data_type key = some t ∧ alookup CALCULATOR_FUNCTION_MAP t = some c ∧
      b = bindCalculator c s.inputUnitSystem s.outputUnitSystem := by
  have h1 := get_calculator_func_wf s key hwf
  have hu := get_calculator_func_units s key
  rw [hgc] at h1 hu
  exact ⟨h1.1, hu.1, hu.2, h1.2 b rfl⟩

theorem bindCalculator_arity (c : Calculator) (iu ou : String) :
    (bindCalculator c iu ou).arity = c.arity := rfl

theorem applyBound_one (b : BoundCalc) (x : Scalar) (h : b.arity = 1) :
    applyBound b [x] = some (Value.app b.cname b.inUnit b.outUnit [x]) := by
  simp [applyBound, h]

theorem applyBound_some_arity (b : BoundCalc) (args : List Scalar) (out : Value)
    (h : applyBound b args = some out) : args.length = b.arity := by
  unfold applyBound at h
  by_cases hl : args.length = b.arity
  · exact hl
  · rw [if_neg hl] at h; cases h

theorem translateList_nil (td : AList Value) (s : Session) :
    translateList td s [] = some (td, s) := rfl

theorem translateList_cons_ignored (td : AList Value) (s : Session) (key raw : String)
    (rest : Payload) (h : DEFAULT_KEYS_TO_IGNORE.contains key = true) :
    translateList td s ((key, raw) :: rest) = translateList td s rest := by
  simp only [translateList]
  rw [if_pos h]

theorem translateList_cons_calc (td : AList Value) (s : Session) (key raw : String)
    (rest : Payload) (b : BoundCalc) (s1 : Session) (out : Value)
    (hni : DEFAULT_KEYS_TO_IGNORE.contains key = false)
    (hgc : get_calculator_func s key = (some b, s1))
    (hap : applyBound b [coerceValue raw] = some out) :
    translateList td s ((key, raw) :: rest) =
      translateList (ainsert td (de_unit_key key) out) s1 rest := by
  simp only [translateList]
  rw [if_neg (by rw [hni]; exact Bool.false_ne_true)]
  simp only [hgc, hap]

theorem translateList_cons_calc_fail (td : AList Value) (s : Session) (key raw : String)
    (rest : Payload) (b : BoundCalc) (s1 : Session)
    (hni : DEFAULT_KEYS_TO_IGNORE.contains key = false)
    (hgc : get_calculator_func s key = (some b, s1))
    (hap : applyBound b [coerceValue raw] = none) :
    translateList td s ((key, raw) :: rest) = none := by
  simp only [translateList]
  rw [if_neg (by rw [hni]; exact Bool.false_ne_true)]
  simp only [hgc, hap]

theorem translateList_cons_pass (td : AList Value) (s : Session) (key raw : String)
    (rest : Payload) (s1 : Session)
    (hni : DEFAULT_KEYS_TO_IGNORE.contains key = false)
    (hgc : get_calculator_func s key = (none, s1)) :
    translateList td s ((key, raw) :: rest) =
      translateList (ainsert td key (Value.pv (coerceValue raw))) s1 rest := by
  simp only [translateList]
  rw [if_neg (by rw [hni]; exact Bool.false_ne_true)]
  simp only [hgc]

theorem contains_eq_false_of_ne_true {l : List String} {k : String}
    (h : ¬ l.contains k = true) : l.contains k = false := by
  cases hx : l.contains k
  · rfl
  · exact absurd hx h

theorem translateList_wf (p : Payload) :
    ∀ (td : AList Value) (s : Session) (td' : AList Value) (s' : Session),
      SessionWF s → translateList td s p = some (td', s') →
      SessionWF s' ∧ s'.inputUnitSystem = s.inputUnitSystem ∧
        s'.outputUnitSystem = s.outputUnitSystem := by
  induction p with
  | nil =>
    intro td s td' s' hwf h
    rw [translateList_nil] at h
    obtain ⟨h1, h2⟩ := Prod.mk.injEq .. ▸ Option.some.inj h
    subst h2
    exact ⟨hwf, rfl, rfl⟩
  | cons kv rest ih =>
    intro td s td' s' hwf h
    obtain ⟨key, raw⟩ := kv
    by_cases hni : DEFAULT_KEYS_TO_IGNORE.contains key = true
    · rw [translateList_cons_ignored td s key raw rest hni] at h
      exact ih td s td' s' hwf h
    · have hni' := contains_eq_false_of_ne_true hni
      cases hgc : get_calculator_func s key with
      | mk r s1 =>
        cases r with
        | some b =>
          obtain ⟨hwf1, hi1, ho1, -⟩ := gcf_some_info s key b s1 hwf hgc
          cases hap : applyBound b [coerceValue raw] with
          | none =>
            rw [translateList_cons_calc_fail td s key raw rest b s1 hni' hgc hap] at h
            cases h
          | some out =>
            rw [translateList_cons_calc td s key raw rest b s1 out hni' hgc hap] at h
            obtain ⟨hwf', hi, ho⟩ := ih _ s1 td' s' hwf1 h
            exact ⟨hwf', hi.trans hi1, ho.trans ho1⟩
        | none =>
          obtain ⟨-, hs1⟩ := get_calculator_func_none s key s1 hgc
          rw [hs1] at hgc
          rw [translateList_cons_pass td s key raw rest s hni' hgc] at h
          exact ih _ s td' s' hwf h

theorem translateList_keys (p : Payload) :
    ∀ (td : AList Value) (s : Session) (td' : AList Value) (s' : Session),
      SessionWF s → translateList td s p = some (td', s') →
      ∀ k, amem td' k = true → amem td k = true ∨
        ∃ key raw, (key, raw) ∈ p ∧ DEFAULT_KEYS_TO_IGNORE.contains key = false ∧
          ((get_data_type key = none ∧ k = key) ∨
           ((get_data_type key).isSome = true ∧ resolvedArity key = some 1 ∧
             k = de_unit_key key)) := by
  induction p with
  | nil =>
    intro td s td' s' hwf h k hk
    rw [translateList_nil] at h
    obtain ⟨h1, h2⟩ := Prod.mk.injEq .. ▸ Option.some.inj h
    subst h1
    exact Or.inl hk
  | cons kv rest ih =>
    intro td s td' s' hwf h k hk
    obtain ⟨key, raw⟩ := kv
    by_cases hni : DEFAULT_KEYS_TO_IGNORE.contains key = true
    · rw [translateList_cons_ignored td s key raw rest hni] at h
      rcases ih td s td' s' hwf h k hk with hbase | ⟨key', raw', hmem, h2, h3⟩
      · exact Or.inl hbase
      · exact Or.inr ⟨key', raw', List.mem_cons_of_mem _ hmem, h2, h3⟩
    · have hni' := contains_eq_false_of_ne_true hni
      cases hgc : get_calculator_func s key with
      | mk r s1 =>
        cases r with
        | some b =>
          obtain ⟨hwf1, -, -, t, c, hgd, hmc, hb⟩ := gcf_some_info s key b s1 hwf hgc
          cases hap : applyBound b [coerceValue raw] with
          | none =>
            rw [translateList_cons_calc_fail td s key raw rest b s1 hni' hgc hap] at h
            cases h
          | some out =>
            rw [translateList_cons_calc td s key raw rest b s1 out hni' hgc hap] at h
            have harity : c.arity = 1 := by
              have := applyBound_some_arity b _ out hap
              rw [hb, bindCalculator_arity] at this
              exact this.symm
            have hra : resolvedArity key = some 1 := by
              rw [resolvedArity_eq key t c hgd hmc, harity]
            rcases ih _ s1 td' s' hwf1 h k hk with hbase | ⟨key', raw', hmem, h2, h3⟩
            · rw [amem_ainsert] at hbase
              cases hdk : (de_unit_key key == k) with
              | true =>
                refine Or.inr ⟨key, raw, List.mem_cons_self _ _, hni', Or.inr ?_⟩
                exact ⟨by rw [hgd]; rfl, hra, (beq_iff_eq.1 hdk).symm⟩
              | false =>
                rw [hdk] at hbase
                simp at hbase
                exact Or.inl hbase
            · exact Or.inr ⟨key', raw', List.mem_cons_of_mem _ hmem, h2, h3⟩
        | none =>
          obtain ⟨hgd, hs1⟩ := get_calculator_func_none s key s1 hgc
          rw [hs1] at hgc
          rw [translateList_cons_pass td s key raw rest s hni' hgc] at h
          rcases ih _ s td' s' hwf h k hk with hbase | ⟨key', raw', hmem, h2, h3⟩
          · rw [amem_ainsert] at hbase
            cases hdk : (key == k) with
            | true =>
              exact Or.inr ⟨key, raw, List.mem_cons_self _ _, hni',
                Or.inl ⟨hgd, (beq_iff_eq.1 hdk).symm⟩⟩
            | false =>
              rw [hdk] at hbase
              simp at hbase
              exact Or.inl hbase
          · exact Or.inr ⟨key', raw', List.mem_cons_of_mem _ hmem, h2, h3⟩

theorem translateList_total (p : Payload) :
    ∀ (td : AList Value) (s : Session), SessionWF s →
      (∀ key raw, (key, raw) ∈ p → DEFAULT_KEYS_TO_IGNORE.contains key = false →
        ∀ t c, get_data_type key = some t → alookup CALCULATOR_FUNCTION_MAP t = some c →
          c.arity = 1) →
      ∃ td' s', translateList td s p = some (td', s') := by
  induction p with
  | nil => intro td s _ _; exact ⟨td, s, rfl⟩
  | cons kv rest ih =>
    intro td s hwf hcond
    obtain ⟨key, raw⟩ := kv
    by_cases hni : DEFAULT_KEYS_TO_IGNORE.contains key = true
    · rw [translateList_cons_ignored td s key raw rest hni]
      exact ih td s hwf (fun k r hm => hcond k r (List.mem_cons_of_mem _ hm))
    · have hni' := contains_eq_false_of_ne_true hni
      cases hgc : get_calculator_func s key with
      | mk r s1 =>
        cases r with
        | some b =>
          obtain ⟨hwf1, -, -, t, c, hgd, hmc, hb⟩ := gcf_some_info s key b s1 hwf hgc
          have harity : b.arity = 1 := by
            rw [hb, bindCalculator_arity]
            exact hcond key raw (List.mem_cons_self _ _) hni' t c hgd hmc
          rw [translateList_cons_calc td s key raw rest b s1 _ hni' hgc
            (applyBound_one b (coerceValue raw) harity)]
          exact ih _ s1 hwf1 (fun k r hm => hcond k r (List.mem_cons_of_mem _ hm))
        | none =>
          obtain ⟨-, hs1⟩ := get_calculator_func_none s key s1 hgc
          rw [hs1] at hgc
          rw [translateList_cons_pass td s key raw rest s hni' hgc]
          exact ih _ s hwf (fun k r hm => hcond k r (List.mem_cons_of_mem _ hm))

theorem translateList_preserve (p : Payload) :
    ∀ (td : AList Value) (s : Session) (td' : AList Value) (s' : Session) (k : String)
      (v : Value),
      translateList td s p = some (td', s') → alookup td k = some v →
      (∀ key raw, (key, raw) ∈ p → DEFAULT_KEYS_TO_IGNORE.contains key = false →
        targetName key ≠ k) →
      alookup td' k = some v := by
  induction p with
  | nil =>
    intro td s td' s' k v h hv _
    rw [translateList_nil] at h
    obtain ⟨h1, h2⟩ := Prod.mk.injEq .. ▸ Option.some.inj h
    subst h1
    exact hv
  | cons kv rest ih =>
    intro td s td' s' k v h hv hcond
    obtain ⟨key, raw⟩ := kv
    by_cases hni : DEFAULT_KEYS_TO_IGNORE.contains key = true
    · rw [translateList_cons_ignored td s key raw rest hni] at h
      exact ih td s td' s' k v h hv (fun k' r' hm => hcond k' r' (List.mem_cons_of_mem _ hm))
    · have hni' := contains_eq_false_of_ne_true hni
      cases hgc : get_calculator_func s key with
      | mk r s1 =>
        cases r with
        | some b =>
          cases hap : applyBound b [coerceValue raw] with
          | none =>
            rw [translateList_cons_calc_fail td s key raw rest b s1 hni' hgc hap] at h
            cases h
          | some out =>
            rw [translateList_cons_calc td s key raw rest b s1 out hni' hgc hap] at h
            have htn : targetName key = de_unit_key key := by
              unfold targetName
              cases hgd : get_data_type key with
              | none =>
                have := get_calculator_func_fst_some s key b s1 hgc
                rw [hgd] at this
                cases this
              | some t => rfl
            have hne : k ≠ de_unit_key key := by
              intro hh
              exact hcond key raw (List.mem_cons_self _ _) hni' (by rw [htn, ← hh])
            have hv2 : alookup (ainsert td (de_unit_key key) out) k = some v := by
              rw [alookup_ainsert_ne td (de_unit_key key) k out hne]
              exact hv
            exact ih _ s1 td' s' k v h hv2
              (fun k' r' hm => hcond k' r' (List.mem_cons_of_mem _ hm))
        | none =>
          obtain ⟨hgd, hs1⟩ := get_calculator_func_none s key s1 hgc
          rw [hs1] at hgc
          rw [translateList_cons_pass td s key raw rest s hni' hgc] at h
          have htn : targetName key = key := by
            unfold targetName
            rw [hgd]
          have hne : k ≠ key := by
            intro hh
            exact hcond key raw (List.mem_cons_self _ _) hni' (by rw [htn, ← hh])
          have hv2 : alookup (ainsert td key (Value.pv (coerceValue raw))) k = some v := by
            rw [alookup_ainsert_ne td key k _ hne]
            exact hv
          exact ih _ s td' s' k v h hv2
            (fun k' r' hm => hcond k' r' (List.mem_cons_of_mem _ hm))

theorem translateList_pass_lookup (p : Payload) :
    ∀ (td : AList Value) (s : Session) (td' : AList Value) (s' : Session)
      (key raw : String),
      translateList td s p = some (td', s') →
      (key, raw) ∈ p →
      DEFAULT_KEYS_TO_IGNORE.contains key = false →
      get_data_type key = none →
      (p.map Prod.fst).Nodup →
      (∀ key2 raw2, (key2, raw2) ∈ p → key2 ≠ key →
        DEFAULT_KEYS_TO_IGNORE.contains key2 = false → targetName key2 ≠ key) →
      alookup td' key = some (Value.pv (coerceValue raw)) := by
  induction p with
  | nil =>
    intro td s td' s' key raw h hmem
    cases hmem
  | cons kv rest ih =>
    intro td s td' s' key raw h hmem hni hgd hnd hcond
    obtain ⟨k0, r0⟩ := kv
    rw [List.map_cons, List.nodup_cons] at hnd
    rcases List.mem_cons.1 hmem with heq | hmem'
    · -- the entry itself is at the head
      injection heq with hk0 hr0
      subst hk0
      subst hr0
      have hgc := get_calculator_func_of_none s key hgd
      rw [translateList_cons_pass td s key raw rest s hni hgc] at h
      have hbase : alookup (ainsert td key (Value.pv (coerceValue raw))) key =
          some (Value.pv (coerceValue raw)) := alookup_ainsert_self td key _
      refine translateList_preserve rest _ s td' s' key _ h hbase ?_
      intro key2 raw2 hm2 hni2
      have hkne : key2 ≠ key := by
        intro hh
        exact hnd.1 (hh ▸ List.mem_map.2 ⟨(key2, raw2), hm2, rfl⟩)
      exact hcond key2 raw2 (List.mem_cons_of_mem _ hm2) hkne hni2
    · -- the entry sits in the tail
      by_cases hik : DEFAULT_KEYS_TO_IGNORE.contains k0 = true
      · rw [translateList_cons_ignored td s k0 r0 rest hik] at h
        exact ih td s td' s' key raw h hmem' hni hgd hnd.2
          (fun k2 r2 hm2 => hcond k2 r2 (List.mem_cons_of_mem _ hm2))
      · have hik' := contains_eq_false_of_ne_true hik
        cases hgc : get_calculator_func s k0 with
        | mk r s1 =>
          cases r with
          | some b =>
            cases hap : applyBound b [coerceValue r0] with
            | none =>
              rw [translateList_cons_calc_fail td s k0 r0 rest b s1 hik' hgc hap] at h
              cases h
            | some out =>
              rw [translateList_cons_calc td s k0 r0 rest b s1 out hik' hgc hap] at h
              exact ih _ s1 td' s' key raw h hmem' hni hgd hnd.2
                (fun k2 r2 hm2 => hcond k2 r2 (List.mem_cons_of_mem _ hm2))
          | none =>
            obtain ⟨-, hs1⟩ := get_calculator_func_none s k0 s1 hgc
            rw [hs1] at hgc
            rw [translateList_cons_pass td s k0 r0 rest s hik' hgc] at h
            exact ih _ s td' s' key raw h hmem' hni hgd hnd.2
              (fun k2 r2 hm2 => hcond k2 r2 (List.mem_cons_of_mem _ hm2))

theorem translateList_length (p : Payload) :
    ∀ (td : AList Value) (s : Session) (td' : AList Value) (s' : Session),
      translateList td s p = some (td', s') →
      (∀ key raw, (key, raw) ∈ p → DEFAULT_KEYS_TO_IGNORE.contains key = false →
        amem td (targetName key) = false) →
      ((p.filter (fun kv => !(DEFAULT_KEYS_TO_IGNORE.contains kv.1))).map
        (fun kv => targetName kv.1)).Nodup →
      td'.length = td.length +
        (p.filter (fun kv => !(DEFAULT_KEYS_TO_IGNORE.contains kv.1))).length := by
  induction p with
  | nil =>
    intro td s td' s' h _ _
    rw [translateList_nil] at h
    obtain ⟨h1, h2⟩ := Prod.mk.injEq .. ▸ Option.some.inj h
    subst h1
    simp
  | cons kv rest ih =>
    intro td s td' s' h hfresh hnd
    obtain ⟨k0, r0⟩ := kv
    by_cases hik : DEFAULT_KEYS_TO_IGNORE.contains k0 = true
    · rw [translateList_cons_ignored td s k0 r0 rest hik] at h
      have hfilter : ((k0, r0) :: rest).filter
          (fun kv => !(DEFAULT_KEYS_TO_IGNORE.contains kv.1)) =
          rest.filter (fun kv => !(DEFAULT_KEYS_TO_IGNORE.contains kv.1)) := by
        rw [List.filter_cons, hik]
        simp
      rw [hfilter] at hnd ⊢
      exact ih td s td' s' h
        (fun k r hm => hfresh k r (List.mem_cons_of_mem _ hm)) hnd
    · have hik' := contains_eq_false_of_ne_true hik
      have hfilter : ((k0, r0) :: rest).filter
          (fun kv => !(DEFAULT_KEYS_TO_IGNORE.contains kv.1)) =
          (k0, r0) :: rest.filter (fun kv => !(DEFAULT_KEYS_TO_IGNORE.contains kv.1)) := by
        rw [List.filter_cons, hik']
        simp
      rw [hfilter] at hnd ⊢
      rw [List.map_cons, List.nodup_cons] at hnd
      dsimp only at hnd
      have hfresh0 : amem td (targetName k0) = false :=
        hfresh k0 r0 (List.mem_cons_self _ _) hik'
      cases hgc : get_calculator_func s k0 with
      | mk r s1 =>
        cases r with
        | some b =>
          cases hap : applyBound b [coerceValue r0] with
          | none =>
            rw [translateList_cons_calc_fail td s k0 r0 rest b s1 hik' hgc hap] at h
            cases h
          | some out =>
            rw [translateList_cons_calc td s k0 r0 rest b s1 out hik' hgc hap] at h
            have htn : targetName k0 = de_unit_key k0 := by
              unfold targetName
              cases hgd0 : get_data_type k0 with
              | none =>
                have := get_calculator_func_fst_some s k0 b s1 hgc
                rw [hgd0] at this
                cases this
              | some t => rfl
            have hins : (ainsert td (de_unit_key k0) out).length = td.length + 1 := by
              rw [length_ainsert_of_amem_false td (de_unit_key k0) out (htn ▸ hfresh0)]
            have hrest := ih (ainsert td (de_unit_key k0) out) s1 td' s' h ?hfr hnd.2
            · rw [hrest, hins, List.length_cons]
              omega
            case hfr =>
              intro k2 r2 hm2 hni2
              rw [amem_ainsert]
              have h1 : (de_unit_key k0 == targetName k2) = false := by
                rw [beq_eq_false_iff_ne]
                intro hh
                exact hnd.1 (by
                  rw [htn, hh]
                  exact List.mem_map.2 ⟨(k2, r2), List.mem_filter.2
                    ⟨hm2, by rw [hni2]; rfl⟩, rfl⟩)
              rw [h1, hfresh k2 r2 (List.mem_cons_of_mem _ hm2) hni2]
              rfl
        | none =>
          obtain ⟨hgd0, hs1⟩ := get_calculator_func_none s k0 s1 hgc
          rw [hs1] at hgc
          rw [translateList_cons_pass td s k0 r0 rest s hik' hgc] at h
          have htn : targetName k0 = k0 := by
            unfold targetName
            rw [hgd0]
          have hins : (ainsert td k0 (Value.pv (coerceValue r0))).length = td.length + 1 := by
            rw [length_ainsert_of_amem_false td k0 _ (htn ▸ hfresh0)]
          have hrest := ih (ainsert td k0 (Value.pv (coerceValue r0))) s td' s' h ?hfr2 hnd.2
          · rw [hrest, hins, List.length_cons]
            omega
          case hfr2 =>
            intro k2 r2 hm2 hni2
            rw [amem_ainsert]
            have h1 : (k0 == targetName k2) = false := by
              rw [beq_eq_false_iff_ne]
              intro hh
              exact hnd.1 (by
                rw [htn, hh]
                exact List.mem_map.2 ⟨(k2, r2), List.mem_filter.2
                  ⟨hm2, by rw [hni2]; rfl⟩, rfl⟩)
            rw [h1, hfresh k2 r2 (List.mem_cons_of_mem _ hm2) hni2]
            rfl

/-! ### Derived-metric pass lemmas -/

theorem mapM_option_length {α β : Type} (f : α → Option β) (l : List α) :
    ∀ bs, l.mapM f = some bs → bs.length = l.length := by
  induction l with
  | nil =>
    intro bs h
    have h0 : (some [] : Option (List β)) = some bs := h
    rw [← Option.some.inj h0]
    rfl
  | cons a l ih =>
    intro bs h
    rw [List.mapM_cons] at h
    cases hfa : f a with
    | none => rw [hfa] at h; simp at h
    | some b =>
      rw [hfa] at h
      cases hrest : l.mapM f with
      | none => rw [hrest] at h; simp at h
      | some rest =>
        rw [hrest] at h
        simp at h
        rw [← h]
        simp [ih rest hrest]

theorem mapM_option_total {α β : Type} (f : α → Option β) (l : List α)
    (h : ∀ a ∈ l, ∃ b, f a = some b) : ∃ bs, l.mapM f = some bs := by
  induction l with
  | nil => exact ⟨[], rfl⟩
  | cons a l ih =>
    obtain ⟨b, hb⟩ := h a (List.mem_cons_self _ _)
    obtain ⟨bs, hbs⟩ := ih (fun x hx => h x (List.mem_cons_of_mem _ hx))
    refine ⟨b :: bs, ?_⟩
    rw [List.mapM_cons, hb, hbs]
    rfl

theorem calculatedList_nil (p : Payload) (td cd : AList Value) (s : Session) :
    calculatedList p td cd s [] = some (cd, s) := rfl

theorem calculatedList_cons_skip (p : Payload) (td cd : AList Value) (s : Session)
    (tk : String) (inks : List String) (rest : List (String × List String))
    (hgate : inks.all (fun k => amem td k) = false) :
    calculatedList p td cd s ((tk, inks) :: rest) = calculatedList p td cd s rest := by
  simp only [calculatedList]
  rw [if_neg (by rw [hgate]; exact Bool.false_ne_true)]

theorem calculatedList_cons_nocalc (p : Payload) (td cd : AList Value) (s : Session)
    (tk : String) (inks : List String) (rest : List (String × List String)) (s1 : Session)
    (hgate : inks.all (fun k => amem td k) = true)
    (hgc : get_calculator_func s tk = (none, s1)) :
    calculatedList p td cd s ((tk, inks) :: rest) = calculatedList p td cd s1 rest := by
  simp only [calculatedList]
  rw [if_pos hgate]
  simp only [hgc]

theorem calculatedList_cons_fail1 (p : Payload) (td cd : AList Value) (s : Session)
    (tk : String) (inks : List String) (rest : List (String × List String))
    (b : BoundCalc) (s1 : Session)
    (hgate : inks.all (fun k => amem td k) = true)
    (hgc : get_calculator_func s tk = (some b, s1))
    (hmap : inks.mapM (fun k => plookup p k) = none) :
    calculatedList p td cd s ((tk, inks) :: rest) = none := by
  simp only [calculatedList]
  rw [if_pos hgate]
  simp only [hgc, hmap]

theorem calculatedList_cons_fail2 (p : Payload) (td cd : AList Value) (s : Session)
    (tk : String) (inks : List String) (rest : List (String × List String))
    (b : BoundCalc) (s1 : Session) (raws : List String)
    (hgate : inks.all (fun k => amem td k) = true)
    (hgc : get_calculator_func s tk = (some b, s1))
    (hmap : inks.mapM (fun k => plookup p k) = some raws)
    (hap : applyBound b (raws.map Scalar.str) = none) :
    calculatedList p td cd s ((tk, inks) :: rest) = none := by
  simp only [calculatedList]
  rw [if_pos hgate]
  simp only [hgc, hmap, hap]

theorem calculatedList_cons_go (p : Payload) (td cd : AList Value) (s : Session)
    (tk : String) (inks : List String) (rest : List (String × List String))
    (b : BoundCalc) (s1 : Session) (raws : List String) (out : Value)
    (hgate : inks.all (fun k => amem td k) = true)
    (hgc : get_calculator_func s tk = (some b, s1))
    (hmap : inks.mapM (fun k => plookup p k) = some raws)
    (hap : applyBound b (raws.map Scalar.str) = some out) :
    calculatedList p td cd s ((tk, inks) :: rest) =
      calculatedList p td (ainsert cd tk out) s1 rest := by
  simp only [calculatedList]
  rw [if_pos hgate]
  simp only [hgc, hmap, hap]

theorem calculatedList_preserve (specs : List (String × List String)) :
    ∀ (p : Payload) (td cd : AList Value) (s : Session) (cd' : AList Value) (s' : Session)
      (k : String) (v : Value),
      calculatedList p td cd s specs = some (cd', s') → alookup cd k = some v →
      k ∉ specs.map Prod.fst → alookup cd' k = some v := by
  induction specs with
  | nil =>
    intro p td cd s cd' s' k v h hv _
    rw [calculatedList_nil] at h
    obtain ⟨h1, h2⟩ := Prod.mk.injEq .. ▸ Option.some.inj h
    subst h1
    exact hv
  | cons sp rest ih =>
    intro p td cd s cd' s' k v h hv hk
    obtain ⟨tk, inks⟩ := sp
    have hktk : k ≠ tk := by
      intro hh
      exact hk (by rw [hh]; simp)
    have hkrest : k ∉ rest.map Prod.fst := fun hh => hk (by simp [hh])
    cases hgate : inks.all (fun k => amem td k) with
    | false =>
      rw [calculatedList_cons_skip p td cd s tk inks rest hgate] at h
      exact ih p td cd s cd' s' k v h hv hkrest
    | true =>
      cases hgc : get_calculator_func s tk with
      | mk r s1 =>
        cases r with
        | none =>
          rw [calculatedList_cons_nocalc p td cd s tk inks rest s1 hgate hgc] at h
          exact ih p td cd s1 cd' s' k v h hv hkrest
        | some b =>
          cases hmap : inks.mapM (fun k => plookup p k) with
          | none =>
            rw [calculatedList_cons_fail1 p td cd s tk inks rest b s1 hgate hgc hmap] at h
            cases h
          | some raws =>
            cases hap : applyBound b (raws.map Scalar.str) with
            | none =>
              rw [calculatedList_cons_fail2 p td cd s tk inks rest b s1 raws
                hgate hgc hmap hap] at h
              cases h
            | some out =>
              rw [calculatedList_cons_go p td cd s tk inks rest b s1 raws out
                hgate hgc hmap hap] at h
              have hv2 : alookup (ainsert cd tk out) k = some v := by
                rw [alookup_ainsert_ne cd tk k out hktk]
                exact hv
              exact ih p td (ainsert cd tk out) s1 cd' s' k v h hv2 hkrest

theorem calculatedList_spec (specs : List (String × List String)) :
    ∀ (p : Payload) (td cd : AList Value) (s : Session) (cd' : AList Value) (s' : Session),
      SessionWF s →
      (∀ tk inks, (tk, inks) ∈ specs → get_data_type tk = some tk ∧
        ∀ c, alookup CALCULATOR_FUNCTION_MAP tk = some c → c.arity = inks.length) →
      (specs.map Prod.fst).Nodup →
      (∀ tk, tk ∈ specs.map Prod.fst → amem cd tk = false) →
      calculatedList p td cd s specs = some (cd', s') →
      (cd'.map Prod.fst = cd.map Prod.fst ++
        ((specs.filter (fun sp => sp.2.all (fun k => amem td k))).map Prod.fst)) ∧
      (∀ tk inks, (tk, inks) ∈ specs → inks.all (fun k => amem td k) = true →
        ∃ raws c, inks.mapM (fun k => plookup p k) = some raws ∧
          alookup CALCULATOR_FUNCTION_MAP tk = some c ∧
          alookup cd' tk = some (Value.app c.cname
            (if c.acceptsInputUnitSystem then some s.inputUnitSystem else none)
            (if c.acceptsOutputUnitSystem then some s.outputUnitSystem else none)
            (raws.map Scalar.str))) := by
  induction specs with
  | nil =>
    intro p td cd s cd' s' _ _ _ _ h
    rw [calculatedList_nil] at h
    obtain ⟨h1, h2⟩ := Prod.mk.injEq .. ▸ Option.some.inj h
    subst h1
    exact ⟨by simp, fun tk inks hm => absurd hm (List.not_mem_nil _)⟩
  | cons sp rest ih =>
    intro p td cd s cd' s' hwf htypes hnd hdisj h
    obtain ⟨tk, inks⟩ := sp
    rw [List.map_cons, List.nodup_cons] at hnd
    obtain ⟨hgdtk, harity⟩ := htypes tk inks (List.mem_cons_self _ _)
    have htypes' := fun tk' inks' hm => htypes tk' inks' (List.mem_cons_of_mem _ hm)
    have hdisj' : ∀ tk' ∈ List.map Prod.fst rest, amem cd tk' = false := by
      intro tk' hm
      exact hdisj tk' (List.mem_cons_of_mem _ hm)
    cases hgate : inks.all (fun k => amem td k) with
    | false =>
      rw [calculatedList_cons_skip p td cd s tk inks rest hgate] at h
      obtain ⟨ha, hb⟩ := ih p td cd s cd' s' hwf htypes' hnd.2 hdisj' h
      constructor
      · rw [ha, List.filter_cons]
        dsimp only
        rw [hgate]
        rfl
      · intro tk' inks' hm hgate'
        rcases List.mem_cons.1 hm with heq | hm'
        · injection heq with h1 h2
          subst h1
          subst h2
          rw [hgate'] at hgate
          cases hgate
        · exact hb tk' inks' hm' hgate'
    | true =>
      obtain ⟨b, s1, hgc, hstore, hiu, hou⟩ := get_calculator_func_some_of_isSome s tk tk hgdtk
      obtain ⟨hwf1, hiu1, hou1, t, c, hgd2, hmc, hb⟩ := gcf_some_info s tk b s1 hwf hgc
      have htk : t = tk := Option.some.inj (hgd2.symm.trans hgdtk)
      rw [htk] at hmc
      cases hmap : inks.mapM (fun k => plookup p k) with
      | none =>
        rw [calculatedList_cons_fail1 p td cd s tk inks rest b s1 hgate hgc hmap] at h
        cases h
      | some raws =>
        have hlen : raws.length = inks.length := mapM_option_length _ inks raws hmap
        have harr : (raws.map Scalar.str).length = b.arity := by
          rw [List.length_map, hlen, hb, bindCalculator_arity]
          exact (harity c hmc).symm
        have hap : applyBound b (raws.map Scalar.str) =
            some (Value.app b.cname b.inUnit b.outUnit (raws.map Scalar.str)) := by
          simp [applyBound, harr]
        rw [calculatedList_cons_go p td cd s tk inks rest b s1 raws _ hgate hgc hmap hap] at h
        have hdisjtk : amem cd tk = false := hdisj tk (by simp)
        have hdisj2 : ∀ tk', tk' ∈ rest.map Prod.fst →
            amem (ainsert cd tk (Value.app b.cname b.inUnit b.outUnit (raws.map Scalar.str)))
              tk' = false := by
          intro tk' hm
          rw [amem_ainsert]
          have h1 : (tk == tk') = false := by
            rw [beq_eq_false_iff_ne]
            intro hh
            exact hnd.1 (hh ▸ hm)
          rw [h1, hdisj' tk' hm]
          rfl
        obtain ⟨ha, hbrest⟩ := ih p td (ainsert cd tk _) s1 cd' s' hwf1 htypes' hnd.2 hdisj2 h
        constructor
        · rw [ha, keys_ainsert_of_amem_false cd tk _ hdisjtk, List.filter_cons]
          dsimp only
          rw [hgate]
          simp
        · intro tk' inks' hm hgate'
          rcases List.mem_cons.1 hm with heq | hm'
          · injection heq with h1 h2
            subst h1
            subst h2
            refine ⟨raws, c, hmap, hmc, ?_⟩
            have hself : alookup (ainsert cd tk'
                (Value.app b.cname b.inUnit b.outUnit (raws.map Scalar.str))) tk' =
                some (Value.app b.cname b.inUnit b.outUnit (raws.map Scalar.str)) :=
              alookup_ainsert_self cd tk' _
            have hkeep := calculatedList_preserve rest p td _ s1 cd' s' tk' _ h hself hnd.1
            rw [hkeep, hb]
            rfl
          · obtain ⟨raws', c', hmap', hmc', hlook'⟩ := hbrest tk' inks' hm' hgate'
            refine ⟨raws', c', hmap', hmc', ?_⟩
            rw [hlook', hiu1, hou1]

theorem calculatedList_total (specs : List (String × List String)) :
    ∀ (p : Payload) (td cd : AList Value) (s : Session), SessionWF s →
      (∀ tk inks, (tk, inks) ∈ specs → get_data_type tk = some tk ∧
        ∀ c, alookup CALCULATOR_FUNCTION_MAP tk = some c → c.arity = inks.length) →
      (∀ tk inks, (tk, inks) ∈ specs → inks.all (fun k => amem td k) = true →
        ∀ k, k ∈ inks → ∃ v, plookup p k = some v) →
      ∃ cd' s', calculatedList p td cd s specs = some (cd', s') := by
  induction specs with
  | nil => intro p td cd s _ _ _; exact ⟨cd, s, rfl⟩
  | cons sp rest ih =>
    intro p td cd s hwf htypes hlook
    obtain ⟨tk, inks⟩ := sp
    obtain ⟨hgdtk, harity⟩ := htypes tk inks (List.mem_cons_self _ _)
    have htypes' : ∀ tk' inks', (tk', inks') ∈ rest → get_data_type tk' = some tk' ∧
        ∀ c, alookup CALCULATOR_FUNCTION_MAP tk' = some c → c.arity = inks'.length :=
      fun tk' inks' hm => htypes tk' inks' (List.mem_cons_of_mem _ hm)
    have hlook' : ∀ tk' inks', (tk', inks') ∈ rest →
        inks'.all (fun k => amem td k) = true → ∀ k, k ∈ inks' → ∃ v, plookup p k = some v :=
      fun tk' inks' hm => hlook tk' inks' (List.mem_cons_of_mem _ hm)
    cases hgate : inks.all (fun k => amem td k) with
    | false =>
      rw [calculatedList_cons_skip p td cd s tk inks rest hgate]
      exact ih p td cd s hwf htypes' hlook'
    | true =>
      obtain ⟨b, s1, hgc, -, -, -⟩ := get_calculator_func_some_of_isSome s tk tk hgdtk
      obtain ⟨hwf1, -, -, t, c, hgd2, hmc, hb⟩ := gcf_some_info s tk b s1 hwf hgc
      have htk : t = tk := Option.some.inj (hgd2.symm.trans hgdtk)
      rw [htk] at hmc
      obtain ⟨raws, hmap⟩ := mapM_option_total (fun k => plookup p k) inks
        (hlook tk inks (List.mem_cons_self _ _) hgate)
      have harr : (raws.map Scalar.str).length = b.arity := by
        rw [List.length_map, mapM_option_length _ inks raws hmap, hb, bindCalculator_arity]
        exact (harity c hmc).symm
      have hap : applyBound b (raws.map Scalar.str) =
          some (Value.app b.cname b.inUnit b.outUnit (raws.map Scalar.str)) := by
        simp [applyBound, harr]
      rw [calculatedList_cons_go p td cd s tk inks rest b s1 raws _ hgate hgc hmap hap]
      exact ih p td _ s1 hwf1 htypes' hlook'

theorem alookup_arity_eq (t : String) (n : Nat)
    (hz : (alookup CALCULATOR_FUNCTION_MAP t).map Calculator.arity = some n) :
    ∀ c, alookup CALCULATOR_FUNCTION_MAP t = some c → c.arity = n := by
  intro c hc
  rw [hc] at hz
  exact Option.some.inj hz

theorem derived_specs_types :
    ∀ tk inks, (tk, inks) ∈ DERIVED_METRIC_SPECS → get_data_type tk = some tk ∧
      ∀ c, alookup CALCULATOR_FUNCTION_MAP tk = some c → c.arity = inks.length := by
  intro tk inks hm
  have hm2 : (tk, inks) ∈
      [(DATA_POINT_DEWPOINT, DEW_POINT_KEYS), (DATA_POINT_FEELSLIKE, FEELS_LIKE_KEYS),
        (DATA_POINT_HEATINDEX, HEAT_INDEX_KEYS), (DATA_POINT_WINDCHILL, WIND_CHILL_KEYS)] := hm
  simp only [List.mem_cons, List.not_mem_nil, or_false] at hm2
  rcases hm2 with h | h | h | h <;>
    (injection h with h1 h2
     subst h1
     subst h2
     exact ⟨by decide, alookup_arity_eq _ _ (by decide)⟩)

theorem derived_specs_nodup : (DERIVED_METRIC_SPECS.map Prod.fst).Nodup := by
  decide

theorem contains_of_mem {l : List String} {a : String} (h : a ∈ l) :
    l.contains a = true :=
  List.elem_iff.2 h

theorem translate_not_key (p : Payload) (i o : String) (td' : AList Value) (s' : Session)
    (h : translateList [] ⟨i, o, []⟩ p = some (td', s')) (K : String)
    (hKres : get_data_type K ≠ none)
    (hKder : ∀ key, resolvedArity key = some 1 → de_unit_key key ≠ K) :
    amem td' K = false := by
  cases hx : amem td' K with
  | false => rfl
  | true =>
    exfalso
    rcases translateList_keys p [] ⟨i, o, []⟩ td' s' (sessionWF_empty i o) h K hx with
      hbase | ⟨key, raw, hmem, hni, hcase⟩
    · rw [amem_nil] at hbase; cases hbase
    · rcases hcase with ⟨hgd, rfl⟩ | ⟨hres, hra, heq⟩
      · exact hKres hgd
      · exact hKder key hra heq.symm

theorem translate_ignored_absent (p : Payload) (i o : String) (td' : AList Value)
    (s' : Session) (h : translateList [] ⟨i, o, []⟩ p = some (td', s')) :
    ∀ g ∈ DEFAULT_KEYS_TO_IGNORE, amem td' g = false := by
  intro g hg
  cases hx : amem td' g with
  | false => rfl
  | true =>
    exfalso
    rcases translateList_keys p [] ⟨i, o, []⟩ td' s' (sessionWF_empty i o) h g hx with
      hbase | ⟨key, raw, hmem, hni, hcase⟩
    · rw [amem_nil] at hbase; cases hbase
    · rcases hcase with ⟨hgd, rfl⟩ | ⟨hres, hra, heq⟩
      · rw [contains_of_mem hg] at hni
        cases hni
      · exact de_unit_not_ignored key hres hni g hg heq.symm

theorem amem_keys_filter (cd td : AList Value) (tk : String) (inks : List String)
    (hkeys : cd.map Prod.fst =
      (DERIVED_METRIC_SPECS.filter (fun sp => sp.2.all (fun k => amem td k))).map Prod.fst)
    (hm : (tk, inks) ∈ DERIVED_METRIC_SPECS)
    (huniq : ∀ inks2, (tk, inks2) ∈ DERIVED_METRIC_SPECS → inks2 = inks) :
    amem cd tk = inks.all (fun k => amem td k) := by
  cases hg : inks.all (fun k => amem td k) with
  | true =>
    refine (amem_iff_mem_keys cd tk).2 ?_
    rw [hkeys]
    exact List.mem_map.2 ⟨(tk, inks), List.mem_filter_of_mem hm hg, rfl⟩
  | false =>
    rw [amem_false_iff]
    intro hmem
    rw [hkeys] at hmem
    obtain ⟨ab, habm, habk⟩ := List.mem_map.1 hmem
    obtain ⟨a1, a2⟩ := ab
    obtain ⟨hab1, hab2⟩ := List.mem_filter.1 habm
    have ha1 : a1 = tk := habk
    rw [ha1] at hab1
    have ha2 : a2 = inks := huniq a2 hab1
    rw [ha1, ha2] at hab2
    rw [hab2] at hg
    cases hg

theorem mem_fst_uniq {α β : Type} (l : List (α × β)) (hnd : (l.map Prod.fst).Nodup)
    (a : α) (b b2 : β) (h : (a, b) ∈ l) (h2 : (a, b2) ∈ l) : b = b2 := by
  induction l with
  | nil => cases h
  | cons x xs ih =>
    rw [List.map_cons, List.nodup_cons] at hnd
    rcases List.mem_cons.1 h with rfl | h1
    · rcases List.mem_cons.1 h2 with heq | h1'
      · exact (Prod.ext_iff.1 heq).2.symm
      · exact absurd (List.mem_map.2 ⟨(a, b2), h1', rfl⟩) hnd.1
    · rcases List.mem_cons.1 h2 with rfl | h1'
      · exact absurd (List.mem_map.2 ⟨(a, b), h1, rfl⟩) hnd.1
      · exact ih hnd.2 h1 h1'

theorem calculatedList_keys_sub (specs : List (String × List String)) :
    ∀ (p : Payload) (td cd : AList Value) (s : Session) (cd' : AList Value) (s' : Session),
      calculatedList p td cd s specs = some (cd', s') →
      ∀ k, amem cd' k = true → amem cd k = true ∨ k ∈ specs.map Prod.fst := by
  induction specs with
  | nil =>
    intro p td cd s cd' s' h k hk
    rw [calculatedList_nil] at h
    obtain ⟨h1, h2⟩ := Prod.mk.injEq .. ▸ Option.some.inj h
    subst h1
    exact Or.inl hk
  | cons sp rest ih =>
    intro p td cd s cd' s' h k hk
    obtain ⟨tk, inks⟩ := sp
    cases hgate : inks.all (fun k => amem td k) with
    | false =>
      rw [calculatedList_cons_skip p td cd s tk inks rest hgate] at h
      rcases ih p td cd s cd' s' h k hk with h0 | h0
      · exact Or.inl h0
      · exact Or.inr (List.mem_cons_of_mem _ h0)
    | true =>
      cases hgc : get_calculator_func s tk with
      | mk r s1 =>
        cases r with
        | none =>
          rw [calculatedList_cons_nocalc p td cd s tk inks rest s1 hgate hgc] at h
          rcases ih p td cd s1 cd' s' h k hk with h0 | h0
          · exact Or.inl h0
          · exact Or.inr (List.mem_cons_of_mem _ h0)
        | some b =>
          cases hmap : inks.mapM (fun k => plookup p k) with
          | none =>
            rw [calculatedList_cons_fail1 p td cd s tk inks rest b s1 hgate hgc hmap] at h
            cases h
          | some raws =>
            cases hap : applyBound b (raws.map Scalar.str) with
            | none =>
              rw [calculatedList_cons_fail2 p td cd s tk inks rest b s1 raws
                hgate hgc hmap hap] at h
              cases h
            | some out =>
              rw [calculatedList_cons_go p td cd s tk inks rest b s1 raws out
                hgate hgc hmap hap] at h
              rcases ih p td _ s1 cd' s' h k hk with h0 | h0
              · rw [amem_ainsert] at h0
                cases htk : (tk == k) with
                | true => exact Or.inr (by rw [← beq_iff_eq.1 htk]; simp)
                | false =>
                  rw [htk] at h0
                  simp at h0
                  exact Or.inl h0
              · exact Or.inr (List.mem_cons_of_mem _ h0)

theorem translateList_nodup (p : Payload) :
    ∀ (td : AList Value) (s : Session) (td' : AList Value) (s' : Session),
      translateList td s p = some (td', s') → (td.map Prod.fst).Nodup →
      (td'.map Prod.fst).Nodup := by
  induction p with
  | nil =>
    intro td s td' s' h hnd
    rw [translateList_nil] at h
    obtain ⟨h1, h2⟩ := Prod.mk.injEq .. ▸ Option.some.inj h
    subst h1
    exact hnd
  | cons kv rest ih =>
    intro td s td' s' h hnd
    obtain ⟨key, raw⟩ := kv
    by_cases hni : DEFAULT_KEYS_TO_IGNORE.contains key = true
    · rw [translateList_cons_ignored td s key raw rest hni] at h
      exact ih td s td' s' h hnd
    · have hni' := contains_eq_false_of_ne_true hni
      cases hgc : get_calculator_func s key with
      | mk r s1 =>
        cases r with
        | some b =>
          cases hap : applyBound b [coerceValue raw] with
          | none =>
            rw [translateList_cons_calc_fail td s key raw rest b s1 hni' hgc hap] at h
            cases h
          | some out =>
            rw [translateList_cons_calc td s key raw rest b s1 out hni' hgc hap] at h
            exact ih _ s1 td' s' h (nodup_keys_ainsert td _ _ hnd)
        | none =>
          obtain ⟨-, hs1⟩ := get_calculator_func_none s key s1 hgc
          rw [hs1] at hgc
          rw [translateList_cons_pass td s key raw rest s hni' hgc] at h
          exact ih _ s td' s' h (nodup_keys_ainsert td _ _ hnd)

theorem derived_fst_not_ignored :
    ∀ g ∈ DEFAULT_KEYS_TO_IGNORE, g ∉ DERIVED_METRIC_SPECS.map Prod.fst := by
  decide

/-- C5: whenever a derived metric's gate passes, its calculator is invoked
positionally with the original raw payload values of the required base
identifiers, in the exact order declared by that metric's input list (the
`mapM` lookups are in declared order and feed the symbolic application's
argument list unchanged); and the derived results appear in the fixed
declaration order dew point, feels-like, heat index, wind chill (the
calculated keys are the gate-passing prefix-filter of
`DERIVED_METRIC_SPECS`, independent of raw-payload key order). -/
theorem derived_invocation_raw_positional :
    ∀ (p : Payload) (td : AList Value) (s : Session) (cd : AList Value) (s2 : Session),
      SessionWF s →
      calculatedList p td [] s DERIVED_METRIC_SPECS = some (cd, s2) →
      (cd.map Prod.fst =
        (DERIVED_METRIC_SPECS.filter (fun sp => sp.2.all (fun k => amem td k))).map
          Prod.fst) ∧
      (∀ tk inks, (tk, inks) ∈ DERIVED_METRIC_SPECS →
        inks.all (fun k => amem td k) = true →
        ∃ raws c, inks.mapM (fun k => plookup p k) = some raws ∧
          alookup CALCULATOR_FUNCTION_MAP tk = some c ∧
          alookup cd tk = some (Value.app c.cname
            (if c.acceptsInputUnitSystem then some s.inputUnitSystem else none)
            (if c.acceptsOutputUnitSystem then some s.outputUnitSystem else none)
            (raws.map Scalar.str))) := by
  intro p td s cd s2 hwf h
  obtain ⟨ha, hb⟩ := calculatedList_spec DERIVED_METRIC_SPECS p td [] s cd s2 hwf
    derived_specs_types derived_specs_nodup (fun tk _ => rfl) h
  exact ⟨by rw [ha]; rfl, hb⟩

/-- Witness for `derived_invocation_raw_positional`: a translated mapping
holding `tempf` and `humidity` passes the dew-point gate, and the dew-point
entry records the raw payload strings positionally. -/
theorem derived_invocation_raw_positional_witness :
    ∃ raws c,
      DEW_POINT_KEYS.mapM (fun k => plookup [("tempf", "70"), ("humidity", "50")] k) =
        some raws ∧
      alookup CALCULATOR_FUNCTION_MAP "dewpoint" = some c ∧
      alookup
        [("dewpoint", Value.app "calculate_dew_point" (some "imperial") (some "imperial")
          [Scalar.str "70", Scalar.str "50"]),
         ("heatindex", Value.app "calculate_heat_index" (some "imperial") (some "imperial")
          [Scalar.str "70", Scalar.str "50"])] "dewpoint" =
        some (Value.app c.cname
          (if c.acceptsInputUnitSystem then some "imperial" else none)
          (if c.acceptsOutputUnitSystem then some "imperial" else none)
          (raws.map Scalar.str)) :=
  (derived_invocation_raw_positional [("tempf", "70"), ("humidity", "50")]
    [("tempf", Value.pv (Scalar.num 1)), ("humidity", Value.pv (Scalar.num 2))]
    ⟨"imperial", "imperial", []⟩
    [("dewpoint", Value.app "calculate_dew_point" (some "imperial") (some "imperial")
      [Scalar.str "70", Scalar.str "50"]),
     ("heatindex", Value.app "calculate_heat_index" (some "imperial") (some "imperial")
      [Scalar.str "70", Scalar.str "50"])]
    ⟨"imperial", "imperial",
      [("dewpoint", ⟨"calculate_dew_point", 2, some "imperial", some "imperial"⟩),
       ("heatindex", ⟨"calculate_heat_index", 2, some "imperial", some "imperial"⟩)]⟩
    (sessionWF_empty "imperial" "imperial") (by decide)).2
    "dewpoint" DEW_POINT_KEYS (by decide) (by decide)

/-- C2 counterexample: the raw key `windchillf` resolves to the `wind` data
type, is normalized to `windchill` and lands in the final output although
neither `tempf` nor `windspeedmph` is present in the translated mapping —
the claimed "appears iff every required base identifier is present"
equivalence is false for wind chill. -/
theorem derived_gating_cex :
    (generate_data [("windchillf", "5")] "imperial" "imperial").map
      (fun out => amem out "windchill") = some true ∧
    (translateList [] ⟨"imperial", "imperial", []⟩ [("windchillf", "5")]).map
      (fun r => amem r.1 "tempf" || amem r.1 "windspeedmph") = some false := by
  decide

/-- C2 (amended): in a successful run, dew point, feels-like and heat index
appear in the final output exactly when every identifier of their input list
is a key of the translated mapping; wind chill obeys the same gate for its
derived computation, but the key `windchill` can additionally enter through
the single-value pass (a raw key such as `windchillf` resolves to `wind` and
normalizes to `windchill`), so its presence equals gate-or-translated-key.
When the dew-point gate passes, `dewpoint` appears exactly once, bound to
the dew-point calculator applied to the raw payload values. -/
theorem derived_gating_amended :
    ∀ (p : Payload) (i o : String) (td : AList Value) (s1 : Session) (cd : AList Value)
      (s2 : Session),
      translateList [] ⟨i, o, []⟩ p = some (td, s1) →
      calculatedList p td [] s1 DERIVED_METRIC_SPECS = some (cd, s2) →
      (amem (mergeDicts td cd) "dewpoint" = DEW_POINT_KEYS.all (fun k => amem td k)) ∧
      (amem (mergeDicts td cd) "feelslike" = FEELS_LIKE_KEYS.all (fun k => amem td k)) ∧
      (amem (mergeDicts td cd) "heatindex" = HEAT_INDEX_KEYS.all (fun k => amem td k)) ∧
      (amem (mergeDicts td cd) "windchill" =
        (WIND_CHILL_KEYS.all (fun k => amem td k) || amem td "windchill")) ∧
      (DEW_POINT_KEYS.all (fun k => amem td k) = true →
        ((mergeDicts td cd).map Prod.fst).count "dewpoint" = 1 ∧
        ∃ raws, DEW_POINT_KEYS.mapM (fun k => plookup p k) = some raws ∧
          alookup (mergeDicts td cd) "dewpoint" =
            some (Value.app "calculate_dew_point" (some i) (some o)
              (raws.map Scalar.str))) := by
  intro p i o td s1 cd s2 htrans hcalc
  obtain ⟨hwf1, hiu1, hou1⟩ :=
    translateList_wf p [] ⟨i, o, []⟩ td s1 (sessionWF_empty i o) htrans
  obtain ⟨ha, hbspec⟩ := calculatedList_spec DERIVED_METRIC_SPECS p td [] s1 cd s2 hwf1
    derived_specs_types derived_specs_nodup (fun tk _ => rfl) hcalc
  have ha2 : cd.map Prod.fst =
      (DERIVED_METRIC_SPECS.filter (fun sp => sp.2.all (fun k => amem td k))).map
        Prod.fst := by
    rw [ha]; rfl
  have hdpmem : (("dewpoint" : String), DEW_POINT_KEYS) ∈ DERIVED_METRIC_SPECS := by decide
  have hflmem : (("feelslike" : String), FEELS_LIKE_KEYS) ∈ DERIVED_METRIC_SPECS := by decide
  have hhimem : (("heatindex" : String), HEAT_INDEX_KEYS) ∈ DERIVED_METRIC_SPECS := by decide
  have hwcmem : (("windchill" : String), WIND_CHILL_KEYS) ∈ DERIVED_METRIC_SPECS := by decide
  have hcddp : amem cd "dewpoint" = DEW_POINT_KEYS.all (fun k => amem td k) :=
    amem_keys_filter cd td _ _ ha2 hdpmem
      (fun inks2 hm2 => mem_fst_uniq DERIVED_METRIC_SPECS derived_specs_nodup _ _ _ hm2 hdpmem)
  have hcdfl : amem cd "feelslike" = FEELS_LIKE_KEYS.all (fun k => amem td k) :=
    amem_keys_filter cd td _ _ ha2 hflmem
      (fun inks2 hm2 => mem_fst_uniq DERIVED_METRIC_SPECS derived_specs_nodup _ _ _ hm2 hflmem)
  have hcdhi : amem cd "heatindex" = HEAT_INDEX_KEYS.all (fun k => amem td k) :=
    amem_keys_filter cd td _ _ ha2 hhimem
      (fun inks2 hm2 => mem_fst_uniq DERIVED_METRIC_SPECS derived_specs_nodup _ _ _ hm2 hhimem)
  have hcdwc : amem cd "windchill" = WIND_CHILL_KEYS.all (fun k => amem td k) :=
    amem_keys_filter cd td _ _ ha2 hwcmem
      (fun inks2 hm2 => mem_fst_uniq DERIVED_METRIC_SPECS derived_specs_nodup _ _ _ hm2 hwcmem)
  have htddp : amem td "dewpoint" = false :=
    translate_not_key p i o td s1 htrans "dewpoint" (by decide)
      (fun key hra => (de_unit_not_derived key hra).1)
  have htdfl : amem td "feelslike" = false :=
    translate_not_key p i o td s1 htrans "feelslike" (by decide)
      (fun key hra => (de_unit_not_derived key hra).2.1)
  have htdhi : amem td "heatindex" = false :=
    translate_not_key p i o td s1 htrans "heatindex" (by decide)
      (fun key hra => (de_unit_not_derived key hra).2.2)
  have e1 : amem (mergeDicts td cd) "dewpoint" = DEW_POINT_KEYS.all (fun k => amem td k) := by
    rw [amem_mergeDicts, htddp, hcddp, Bool.false_or]
  have e2 : amem (mergeDicts td cd) "feelslike" =
      FEELS_LIKE_KEYS.all (fun k => amem td k) := by
    rw [amem_mergeDicts, htdfl, hcdfl, Bool.false_or]
  have e3 : amem (mergeDicts td cd) "heatindex" =
      HEAT_INDEX_KEYS.all (fun k => amem td k) := by
    rw [amem_mergeDicts, htdhi, hcdhi, Bool.false_or]
  have e4 : amem (mergeDicts td cd) "windchill" =
      (WIND_CHILL_KEYS.all (fun k => amem td k) || amem td "windchill") := by
    rw [amem_mergeDicts, hcdwc]
    cases amem td "windchill" <;> cases WIND_CHILL_KEYS.all (fun k => amem td k) <;> rfl
  refine ⟨e1, e2, e3, e4, ?_⟩
  intro hgate
  have hndtd : (td.map Prod.fst).Nodup :=
    translateList_nodup p [] ⟨i, o, []⟩ td s1 htrans (by simp)
  have hndout : ((mergeDicts td cd).map Prod.fst).Nodup := nodup_keys_mergeDicts td cd hndtd
  have hmemout : "dewpoint" ∈ (mergeDicts td cd).map Prod.fst := by
    refine (amem_iff_mem_keys _ _).1 ?_
    rw [e1]
    exact hgate
  refine ⟨List.count_eq_one_of_mem hndout hmemout, ?_⟩
  obtain ⟨raws, c, hmap, hmc, hlook⟩ := hbspec "dewpoint" DEW_POINT_KEYS hdpmem hgate
  have hc : calculate_dew_point = c := Option.some.inj
    ((show alookup CALCULATOR_FUNCTION_MAP "dewpoint" = some calculate_dew_point from
      by decide).symm.trans hmc)
  subst hc
  refine ⟨raws, hmap, ?_⟩
  have hndcd : (cd.map Prod.fst).Nodup := by
    rw [ha2]
    exact List.Nodup.sublist ((List.filter_sublist _).map Prod.fst) derived_specs_nodup
  have hlook2 := alookup_mergeDicts_of_alookup td cd "dewpoint" _ hndcd hlook
  rw [hlook2, hiu1, hou1]
  rfl

/-- Witness for `derived_gating_amended` at the concrete payload
`[("tempf", "70"), ("humidity", "50")]`: the dew-point gate checks `tempf`
against the normalized translated mapping (whose key is `temp`), so it
fails and `dewpoint` is absent. -/
theorem derived_gating_amended_witness :
    amem (mergeDicts
      [("temp", Value.app "calculate_temperature" (some "imperial") (some "imperial")
        [Scalar.num 70]), ("humidity", Value.pv (Scalar.num 50))] [])
      "dewpoint" =
      DEW_POINT_KEYS.all (fun k => amem
        [("temp", Value.app "calculate_temperature" (some "imperial") (some "imperial")
          [Scalar.num 70]), ("humidity", Value.pv (Scalar.num 50))] k) :=
  (derived_gating_amended [("tempf", "70"), ("humidity", "50")] "imperial" "imperial"
    [("temp", Value.app "calculate_temperature" (some "imperial") (some "imperial")
      [Scalar.num 70]), ("humidity", Value.pv (Scalar.num 50))]
    ⟨"imperial", "imperial",
      [("temp", ⟨"calculate_temperature", 1, some "imperial", some "imperial"⟩)]⟩
    []
    ⟨"imperial", "imperial",
      [("temp", ⟨"calculate_temperature", 1, some "imperial", some "imperial"⟩)]⟩
    (by decide) (by decide)).1

/-- C3 counterexample: on the spec's example payload the final output does
NOT contain `dewpoint` (nor the other derived keys): the derived gate looks
for `tempf` in the translated mapping, whose key is the normalized `temp`. -/
theorem example_scenario_cex :
    (generate_data [("PASSKEY", "AB"), ("tempf", "77.4"), ("humidity", "54"),
      ("windspeedmph", "4.0")] "imperial" "imperial").map
      (fun out => amem out "dewpoint") = some false := by
  decide

/-- C3 (amended): the example payload yields the normalized keys `temp`,
`humidity` and `windspeed`, excludes `PASSKEY`, and contains none of the
four derived keys, because each derived gate checks the un-normalized input
identifiers against the normalized translated mapping. -/
theorem example_scenario_amended :
    (generate_data [("PASSKEY", "AB"), ("tempf", "77.4"), ("humidity", "54"),
      ("windspeedmph", "4.0")] "imperial" "imperial").map
      (fun out => amem out "temp" && amem out "humidity" && amem out "windspeed" &&
        !(amem out "PASSKEY") && !(amem out "dewpoint") && !(amem out "feelslike") &&
        !(amem out "heatindex") && !(amem out "windchill")) = some true := by
  decide

/-- C4 counterexample: `generate_data` raises.  With payload
`{"tempff": "70", "humidity": "50"}` the single-value pass normalizes
`tempff` to `tempf`, the dew-point gate then passes against the translated
mapping, and `self._payload["tempf"]` raises `KeyError` (modelled as
`none`). -/
theorem generate_data_total_cex :
    generate_data [("tempff", "70"), ("humidity", "50")] "imperial" "imperial" = none ∧
    (translateList [] ⟨"imperial", "imperial", []⟩
      [("tempff", "70"), ("humidity", "50")]).map
      (fun r => amem r.1 "tempf" && amem r.1 "humidity") = some true := by
  decide

/-- C4 (amended): `generate_data` returns a value (never raises) provided
(a) every non-ignored raw key resolves to no data type or to a single-input
calculator, and (b) whenever a derived metric's gate passes against the
translated mapping, each of its input identifiers is also a key of the raw
payload.  Without (a) a multi-input calculator is invoked with one argument
(`TypeError`); without (b) `self._payload[k]` raises `KeyError`. -/
theorem generate_data_total_amended :
    ∀ (p : Payload) (i o : String),
      (∀ kv ∈ p, DEFAULT_KEYS_TO_IGNORE.contains kv.1 = false →
        resolvedArity kv.1 = none ∨ resolvedArity kv.1 = some 1) →
      (∀ r ∈ (translateList [] ⟨i, o, []⟩ p).toList, ∀ sp ∈ DERIVED_METRIC_SPECS,
        sp.2.all (fun k => amem r.1 k) = true →
        ∀ k ∈ sp.2, (plookup p k).isSome = true) →
      ∃ out, generate_data p i o = some out := by
  intro p i o h1 h2
  have hH1 : ∀ key raw, (key, raw) ∈ p → DEFAULT_KEYS_TO_IGNORE.contains key = false →
      ∀ t c, get_data_type key = some t → alookup CALCULATOR_FUNCTION_MAP t = some c →
        c.arity = 1 := by
    intro key raw hm hni t c hgd hmc
    rcases h1 (key, raw) hm hni with hnone | hone
    · rw [resolvedArity_eq key t c hgd hmc] at hnone
      cases hnone
    · rw [resolvedArity_eq key t c hgd hmc] at hone
      exact Option.some.inj hone
  obtain ⟨td, s1, htrans⟩ := translateList_total p [] ⟨i, o, []⟩ (sessionWF_empty i o) hH1
  obtain ⟨hwf1, -, -⟩ := translateList_wf p [] ⟨i, o, []⟩ td s1 (sessionWF_empty i o) htrans
  have hmemr : (td, s1) ∈ (translateList [] ⟨i, o, []⟩ p).toList := by
    rw [htrans]
    exact List.mem_singleton.2 rfl
  have hlook : ∀ tk inks, (tk, inks) ∈ DERIVED_METRIC_SPECS →
      inks.all (fun k => amem td k) = true → ∀ k, k ∈ inks →
      ∃ v, plookup p k = some v := by
    intro tk inks hm hg k hk
    exact Option.isSome_iff_exists.1 (h2 (td, s1) hmemr (tk, inks) hm hg k hk)
  obtain ⟨cd, s2, hcalc⟩ := calculatedList_total DERIVED_METRIC_SPECS p td [] s1 hwf1
    derived_specs_types hlook
  exact ⟨mergeDicts td cd, by simp only [generate_data, htrans, hcalc]⟩

/-- Witness for `generate_data_total_amended`: the spec's example payload
satisfies both side conditions, so `generate_data` succeeds on it. -/
theorem generate_data_total_amended_witness :
    ∃ out, generate_data [("PASSKEY", "AB"), ("tempf", "77.4"), ("humidity", "54"),
      ("windspeedmph", "4.0")] "imperial" "imperial" = some out :=
  generate_data_total_amended
    [("PASSKEY", "AB"), ("tempf", "77.4"), ("humidity", "54"), ("windspeedmph", "4.0")]
    "imperial" "imperial" (by decide) (by decide)

/-- C7 counterexample: `ra` has no data type, yet the output does not map it
to its coerced input value — the later key `rain` resolves to the rain
calculator and is normalized (`rain`[:-2]) to `ra`, overwriting the
pass-through entry. -/
theorem passthrough_cex :
    get_data_type "ra" = none ∧
    (generate_data [("ra", "hello"), ("rain", "5")] "imperial" "imperial").map
      (fun out => decide (alookup out "ra" = some (Value.pv (coerceValue "hello")))) =
      some false := by
  decide

/-- C7 (amended): for a non-ignored raw key whose data type does not
resolve, the output maps the key to exactly the coerced input value,
provided no other non-ignored raw key normalizes to the same output name
(otherwise the later entry overwrites it, as `rain` → `ra` shows). -/
theorem passthrough_amended :
    ∀ (p : Payload) (i o : String) (out : AList Value) (key raw : String),
      generate_data p i o = some out →
      (key, raw) ∈ p →
      DEFAULT_KEYS_TO_IGNORE.contains key = false →
      get_data_type key = none →
      (p.map Prod.fst).Nodup →
      (∀ kv ∈ p, kv.1 ≠ key → DEFAULT_KEYS_TO_IGNORE.contains kv.1 = false →
        targetName kv.1 ≠ key) →
      alookup out key = some (Value.pv (coerceValue raw)) := by
  intro p i o out key raw h hmem hni hgd hnd hcond
  cases htrans : translateList [] ⟨i, o, []⟩ p with
  | none =>
    simp only [generate_data, htrans] at h
    cases h
  | some r =>
    obtain ⟨td, s1⟩ := r
    cases hcalc : calculatedList p td [] s1 DERIVED_METRIC_SPECS with
    | none =>
      simp only [generate_data, htrans, hcalc] at h
      cases h
    | some rc =>
      obtain ⟨cd, s2⟩ := rc
      have hout : out = mergeDicts td cd := by
        simp only [generate_data, htrans, hcalc] at h
        exact (Option.some.inj h).symm
      subst hout
      have hcdkey : amem cd key = false := by
        cases hx : amem cd key with
        | false => rfl
        | true =>
          exfalso
          rcases calculatedList_keys_sub DERIVED_METRIC_SPECS p td [] s1 cd s2 hcalc
            key hx with h0 | hmemcd
          · rw [amem_nil] at h0; cases h0
          · obtain ⟨hn1, hn2, hn3, hn4⟩ := passthrough_not_derived key hgd
            have h4 : key ∈ (["dewpoint", "feelslike", "heatindex", "windchill"] :
                List String) := hmemcd
            simp only [List.mem_cons, List.not_mem_nil, or_false] at h4
            rcases h4 with rfl | rfl | rfl | rfl
            · exact hn1 rfl
            · exact hn2 rfl
            · exact hn3 rfl
            · exact hn4 rfl
      rw [alookup_mergeDicts_of_amem_false td cd key hcdkey]
      exact translateList_pass_lookup p [] ⟨i, o, []⟩ td s1 key raw htrans hmem hni hgd hnd
        (fun k2 r2 hm2 hne hni2 => hcond (k2, r2) hm2 hne hni2)

/-- Witness for `passthrough_amended`: `humidity` resolves to no data type
and passes through with its coerced value. -/
theorem passthrough_amended_witness :
    alookup [("humidity", Value.pv (Scalar.num 54))] "humidity" =
      some (Value.pv (coerceValue "54")) :=
  passthrough_amended [("humidity", "54")] "imperial" "imperial"
    [("humidity", Value.pv (Scalar.num 54))] "humidity" "54"
    (by decide) (by decide) (by decide) (by decide) (by decide) (by decide)

/-- C9 counterexample: the raw keys `temp1f` and `temp1in` both normalize to
`temp1`, so the translated mapping has one entry for two non-ignored raw
keys — "exactly one entry per non-ignored raw key" fails. -/
theorem ignore_exclusion_cex :
    (translateList [] ⟨"imperial", "imperial", []⟩
      [("temp1f", "1"), ("temp1in", "2")]).map (fun r => r.1.length) = some 1 ∧
    (([("temp1f", "1"), ("temp1in", "2")] : Payload).filter
      (fun kv => !(DEFAULT_KEYS_TO_IGNORE.contains kv.1))).length = 2 := by
  decide

/-- C9 (amended): no key of the ignore set ever appears in the output of
`generate_data`; and the translated mapping has exactly one entry per
non-ignored raw key whenever the non-ignored raw keys' normalized output
names are pairwise distinct (collisions such as `temp1f`/`temp1in` merge
entries). -/
theorem ignore_exclusion_amended :
    ∀ (p : Payload) (i o : String) (out : AList Value),
      generate_data p i o = some out →
      (∀ g ∈ DEFAULT_KEYS_TO_IGNORE, amem out g = false) ∧
      (∀ td s1, translateList [] ⟨i, o, []⟩ p = some (td, s1) →
        ((p.filter (fun kv => !(DEFAULT_KEYS_TO_IGNORE.contains kv.1))).map
          (fun kv => targetName kv.1)).Nodup →
        td.length =
          (p.filter (fun kv => !(DEFAULT_KEYS_TO_IGNORE.contains kv.1))).length) := by
  intro p i o out h
  constructor
  · intro g hg
    cases htrans : translateList [] ⟨i, o, []⟩ p with
    | none =>
    simp only [generate_data, htrans] at h
    cases h
    | some r =>
      obtain ⟨td, s1⟩ := r
      cases hcalc : calculatedList p td [] s1 DERIVED_METRIC_SPECS with
      | none =>
      simp only [generate_data, htrans, hcalc] at h
      cases h
      | some rc =>
        obtain ⟨cd, s2⟩ := rc
        have hout : out = mergeDicts td cd := by
          simp only [generate_data, htrans, hcalc] at h
          exact (Option.some.inj h).symm
        subst hout
        rw [amem_mergeDicts, translate_ignored_absent p i o td s1 htrans g hg,
          Bool.false_or]
        cases hx : amem cd g with
        | false => rfl
        | true =>
          exfalso
          rcases calculatedList_keys_sub DERIVED_METRIC_SPECS p td [] s1 cd s2 hcalc
            g hx with h0 | hmemcd
          · rw [amem_nil] at h0; cases h0
          · exact derived_fst_not_ignored g hg hmemcd
  · intro td s1 htrans hnd
    have hlen := translateList_length p [] ⟨i, o, []⟩ td s1 htrans
      (fun _ _ _ _ => rfl) hnd
    simpa using hlen

/-- Witness for `ignore_exclusion_amended`: `PASSKEY` is dropped and
`humidity` yields exactly one translated entry. -/
theorem ignore_exclusion_amended_witness :
    amem [("humidity", Value.pv (Scalar.num 54))] "PASSKEY" = false ∧
    ([("humidity", Value.pv (Scalar.num 54))] : AList Value).length =
      (([("PASSKEY", "AB"), ("humidity", "54")] : Payload).filter
        (fun kv => !(DEFAULT_KEYS_TO_IGNORE.contains kv.1))).length :=
  ⟨(ignore_exclusion_amended [("PASSKEY", "AB"), ("humidity", "54")] "imperial" "imperial"
      [("humidity", Value.pv (Scalar.num 54))] (by decide)).1 "PASSKEY" (by decide),
   (ignore_exclusion_amended [("PASSKEY", "AB"), ("humidity", "54")] "imperial" "imperial"
      [("humidity", Value.pv (Scalar.num 54))] (by decide)).2
     [("humidity", Value.pv (Scalar.num 54))] ⟨"imperial", "imperial", []⟩
     (by decide) (by decide)⟩

/-- Witness for `get_data_type_characterization`: `windchill` is an exact
registry identifier, so the resolver returns it although `wind` also occurs
inside it as a substring — exact match wins. -/
theorem get_data_type_characterization_witness :
    get_data_type "windchill" = some "windchill" :=
  ((get_data_type_characterization "windchill").1 "windchill").2
    (Or.inl ⟨by decide, rfl⟩)

/-- Witness for `resolver_registry_closed`: `PASSKEY` resolves to nothing
and gets no calculator, while the `temp` data type has one. -/
theorem resolver_registry_closed_witness :
    ((get_calculator_func ⟨"imperial", "imperial", []⟩ "PASSKEY").1 = none ↔
      get_data_type "PASSKEY" = none) ∧
    ∃ c, alookup CALCULATOR_FUNCTION_MAP "temp" = some c :=
  ⟨(resolver_registry_closed ⟨"imperial", "imperial", []⟩ "PASSKEY").1,
   (resolver_registry_closed ⟨"imperial", "imperial", []⟩ "tempf").2 "temp" (by decide)⟩

end Ecowitt2Mqtt
